import Mathlib

/-!
# Verification of the resumable chunked-upload engine

Shallow embedding of the backend of `ai-resumeable-file-upload`
(`backend/app/storage.py`, `backend/app/upload_service.py`,
`backend/app/ai_integration.py`, `backend/app/main.py`).

Conventions of the embedding:
* Bytes are `List Nat` (each entry one byte; where the source masks to a
  byte we take `% 256` explicitly).
* The filesystem owned by `Storage` is a record `FS`: the set of existing
  per-upload chunk directories (`dirs`, holding the `upload_id` of each
  directory `<uploads_root>/<upload_id>/`), the committed chunk files
  (`chunks`, keyed by `(upload_id, index)` for file `<index>.chunk`), and
  the files of `<completed_root>` (`completed`, keyed by filename).
  Temporary `.chunk.tmp` files are never observable as committed chunks in
  the source (atomic rename), so they are not part of the state.
* Chunk indices are `Int`: the Python code receives arbitrary ints and
  explicitly checks `chunk_index < 0`.
* Stateful Python methods become state-passing Lean functions
  `... → result × FS` (or on the service state `SState`).
* I/O failure of `Storage.store_chunk` (after its internal retries) is
  environment nondeterminism; it is passed in as an explicit boolean
  `storeOk`.  A failed store leaves no committed chunk (the write goes to
  the `.tmp` name and the atomic rename did not succeed), so the modelled
  state is unchanged on failure.
-/

set_option maxHeartbeats 1000000

/-- Association-list lookup: first entry with the given key
(a Python `dict` access / a filesystem lookup by name). -/
def alGet {κ ν : Type} [DecidableEq κ] (k : κ) : List (κ × ν) → Option ν
  | [] => none
  | p :: l => if p.1 = k then some p.2 else alGet k l

/-- Remove every entry with the given key (file deletion / `del dict[k]`). -/
def alErase {κ ν : Type} [DecidableEq κ] (k : κ) : List (κ × ν) → List (κ × ν)
  | [] => []
  | p :: l => if p.1 = k then alErase k l else p :: alErase k l

/-- Overwrite-or-create the entry for a key (file write / `dict[k] = v`). -/
def alSet {κ ν : Type} [DecidableEq κ] (k : κ) (v : ν) (l : List (κ × ν)) :
    List (κ × ν) :=
  (k, v) :: alErase k l

/-- `mkdir(exist_ok=True)`: add a directory name if absent. -/
def insertDir (d : String) (l : List String) : List String :=
  if d ∈ l then l else d :: l

/-- `shutil.rmtree` on a directory name: remove it. -/
def removeDir (d : String) : List String → List String
  | [] => []
  | x :: l => if x = d then removeDir d l else x :: removeDir d l

/-- Insertion into a sorted list (used to model Python's `sorted`). -/
def insSorted {α : Type} [LinearOrder α] (a : α) : List α → List α
  | [] => [a]
  | b :: l => if a ≤ b then a :: b :: l else b :: insSorted a l

/-- Model of Python's `sorted` on a list of comparable values. -/
def sortL {α : Type} [LinearOrder α] (l : List α) : List α :=
  l.foldr insSorted []

/-- Python `set.add` on a set modelled as a duplicate-free list. -/
def addSet (i : Int) (r : List Int) : List Int :=
  if i ∈ r then r else i :: r

/-- The filesystem state owned by `Storage` (see module docstring). -/
structure FS where
  dirs : List String
  chunks : List ((String × Int) × List Nat)
  completed : List (String × List Nat)
  deriving DecidableEq

/-- `UploadSession` of `upload_service.py` (the `created_at` timestamp is
real time and carries no program logic; it is omitted). -/
structure UploadSession where
  upload_id : String
  filename : String
  total_size : Nat
  total_chunks : Nat
  chunk_size : Nat
  checksum : Option String
  received_chunks : List Int
  deriving DecidableEq

/-- The state of `UploadService`: the storage filesystem plus the
in-memory session registry `self.sessions`. -/
structure SState where
  fs : FS
  sessions : List (String × UploadSession)
  deriving DecidableEq

/-- Decidable equality of `Except` results (for evaluating the engine on
concrete states). -/
instance exceptDecEq {ε α : Type} [DecidableEq ε] [DecidableEq α] :
    DecidableEq (Except ε α)
  | .error e, .error f =>
    if h : e = f then isTrue (by rw [h])
    else isFalse (by intro hh; cases hh; exact h rfl)
  | .error _, .ok _ => isFalse (by intro hh; cases hh)
  | .ok _, .error _ => isFalse (by intro hh; cases hh)
  | .ok a, .ok b =>
    if h : a = b then isTrue (by rw [h])
    else isFalse (by intro hh; cases hh; exact h rfl)

/-- `Storage.get_chunk_path`: computes `<uploads_root>/<upload_id>/<i>.chunk`
and, as a side effect, `mkdir(parents=True, exist_ok=True)` of the
upload directory. -/
def get_chunk_path (fs : FS) (uid : String) (i : Int) : (String × Int) × FS :=
  ((uid, i), { fs with dirs := insertDir uid fs.dirs })

/-- `Storage.chunk_exists`: `get_chunk_path(...)` then `path.exists()`. -/
def chunk_exists (fs : FS) (uid : String) (i : Int) : Bool × FS :=
  let (k, fs1) := get_chunk_path fs uid i
  ((alGet k fs1.chunks).isSome, fs1)

/-- `Storage.get_chunk`: `get_chunk_path(...)`, then read the file or
return `None` when it does not exist. -/
def get_chunk (fs : FS) (uid : String) (i : Int) : Option (List Nat) × FS :=
  let (k, fs1) := get_chunk_path fs uid i
  (alGet k fs1.chunks, fs1)

/-- `Storage.get_chunk_size`: `get_chunk_path(...)` then `stat().st_size`. -/
def get_chunk_size (fs : FS) (uid : String) (i : Int) : Option Nat × FS :=
  let (k, fs1) := get_chunk_path fs uid i
  ((alGet k fs1.chunks).map List.length, fs1)

/-- The chunk indices present in the upload directory (`glob("*.chunk")`,
integer stems; duplicates impossible on a real filesystem, removed here). -/
def chunkIndices (fs : FS) (uid : String) : List Int :=
  fs.chunks.filterMap (fun p => if p.1.1 = uid then some p.1.2 else none)

/-- `Storage.list_chunks`: enumerate committed chunk indices, sorted.
It only reads (`exists()` and `glob`), so the filesystem is returned
unchanged. -/
def list_chunks (fs : FS) (uid : String) : List Int × FS :=
  (sortL (chunkIndices fs uid).dedup, fs)

/-- `Storage.store_chunk`: atomic write (temp file + rename), retried
internally; `storeOk` tells whether the write succeeded after retries.
On success the committed chunk holds exactly `data`; on failure no
committed chunk changed (the rename never returned success). -/
def store_chunk (storeOk : Bool) (fs : FS) (uid : String) (i : Int)
    (data : List Nat) : Bool × FS :=
  if storeOk then
    (true, { fs with dirs := insertDir uid fs.dirs,
                     chunks := alSet (uid, i) data fs.chunks })
  else
    (false, fs)

/-- `Storage.cleanup_chunks`: `shutil.rmtree(<uploads_root>/<upload_id>)`. -/
def cleanup_chunks (fs : FS) (uid : String) : FS :=
  { fs with dirs := removeDir uid fs.dirs,
            chunks := fs.chunks.filter (fun p => p.1.1 != uid) }

/-- Python set equality of two index lists (`set(a) == set(b)`). -/
def sameSet (a b : List Int) : Bool :=
  a.all (fun i => i ∈ b) && b.all (fun i => i ∈ a)

/-- `Storage.reassemble_file`: verify the committed set equals
`{0..total-1}`, append the chunks in index order into
`<completed_root>/<outName>`, validate the size if requested.  Every
failure path deletes whatever is at the output name (the code runs
`output_path.unlink()` whenever `output_path.exists()` in its handler).
Reading chunks goes through `get_chunk`, whose `get_chunk_path` re-creates
the upload directory; with `total = 0` no read happens. -/
def reassemble_file (fs : FS) (uid : String) (total : Nat) (outName : String)
    (expected : Option Nat) : Option (List Nat) × FS :=
  let received := (list_chunks fs uid).1
  let rangeI : List Int := (List.range total).map Int.ofNat
  if sameSet received rangeI then
    let parts := (List.range total).map (fun i => alGet (uid, Int.ofNat i) fs.chunks)
    let dirs1 := if total = 0 then fs.dirs else insertDir uid fs.dirs
    if parts.all Option.isSome then
      let out := (parts.map (fun o => o.getD [])).flatten
      match expected with
      | some e =>
        if out.length = e then
          (some out, { fs with dirs := dirs1, completed := alSet outName out fs.completed })
        else
          (none, { fs with dirs := dirs1, completed := alErase outName fs.completed })
      | none =>
        (some out, { fs with dirs := dirs1, completed := alSet outName out fs.completed })
    else
      (none, { fs with dirs := dirs1, completed := alErase outName fs.completed })
  else
    (none, { fs with completed := alErase outName fs.completed })

/-- Python `c in s` on a string (kernel-computable). -/
def strContains (s : String) (c : Char) : Bool :=
  s.data.contains c

/-- Split a character list at every occurrence of a separator character
(Python `str.split(sep)` for a one-character separator). -/
def splitChar (c : Char) : List Char → List (List Char)
  | [] => [[]]
  | x :: r =>
    let rest := splitChar c r
    if x = c then [] :: rest
    else
      match rest with
      | [] => [[x]]
      | y :: ys => (x :: y) :: ys

/-- Python `str.split(sep)` for a one-character separator. -/
def splitStr (c : Char) (s : String) : List String :=
  (splitChar c s.data).map String.mk

/-- ASCII lower-casing of one character (`str.lower` on the names this
engine sees). -/
def lowerChar (c : Char) : Char :=
  if 'A' ≤ c ∧ c ≤ 'Z' then Char.ofNat (c.toNat + 32) else c

/-- Python `str.lower()` (ASCII range). -/
def strLower (s : String) : String :=
  String.mk (s.data.map lowerChar)

/-- Python whitespace as stripped by `str.strip()`. -/
def isPyWs (c : Char) : Bool :=
  c.toNat = 9 ∨ c.toNat = 10 ∨ c.toNat = 11 ∨ c.toNat = 12 ∨ c.toNat = 13 ∨
    c.toNat = 32

/-- Python `str.strip()`. -/
def pyStrip (s : String) : String :=
  String.mk (((s.data.dropWhile isPyWs).reverse.dropWhile isPyWs).reverse)

/-- `UploadService._detect_file_type`. -/
def detect_file_type (filename : String) : String :=
  let ext :=
    if strContains filename '.' then strLower ((splitStr '.' filename).getLastD "")
    else ""
  if ext ∈ ["jsonl", "json", "csv", "parquet", "tsv", "txt"] then "dataset"
  else if ext ∈ ["pt", "pth", "ckpt", "safetensors", "onnx", "pb", "h5"] then "model_artifact"
  else if ext ∈ ["zip", "tar", "gz", "bz2"] then "archive"
  else "unknown"

/-- Update the registry entry for `uid` in place (Python mutates the
session object held in the dict, leaving the dict structure unchanged). -/
def updSession (uid : String) (s : UploadSession)
    (l : List (String × UploadSession)) : List (String × UploadSession) :=
  l.map (fun kv => if kv.1 = uid then (kv.1, s) else kv)

/-- `session.received_chunks.add(idx)`: a no-op on the registry when the
index is already present (Python mutates the set in place; adding a member
that is present changes nothing). -/
def markReceived (sessions : List (String × UploadSession)) (uid : String)
    (s : UploadSession) (idx : Int) : List (String × UploadSession) :=
  if idx ∈ s.received_chunks then sessions
  else updSession uid { s with received_chunks := idx :: s.received_chunks } sessions

/-- `UploadService.upload_chunk`.  `storeOk` is the environment outcome of
the one `store_chunk` call (ignored on paths that do not store).
When the session is absent the code calls
`get_or_create_session_from_storage`, which reads `list_chunks` (pure) and
always returns `None`, so the call fails with the not-found message. -/
def upload_chunk (storeOk : Bool) (st : SState) (uid : String) (idx : Int)
    (data : List Nat) (totalClaimed : Int) : (Bool × Nat × String) × SState :=
  match alGet uid st.sessions with
  | none =>
    ((false, 0, "Upload session " ++ uid ++ " not found"), st)
  | some s =>
    if idx < 0 ∨ (s.total_chunks : Int) ≤ idx then
      ((false, s.received_chunks.length, "Invalid chunk index: " ++ toString idx), st)
    else if totalClaimed ≠ (s.total_chunks : Int) then
      ((false, s.received_chunks.length,
        "Total chunks mismatch: expected " ++ toString s.total_chunks ++
          ", got " ++ toString totalClaimed), st)
    else
      let (ex, fs1) := chunk_exists st.fs uid idx
      let idem : Bool :=
        if ex then
          let (szOpt, _fs2) := get_chunk_size fs1 uid idx
          szOpt == some data.length
        else false
      if idem then
        ((true, (addSet idx s.received_chunks).length, "Chunk already uploaded (idempotent)"),
         { st with fs := fs1, sessions := markReceived st.sessions uid s idx })
      else
        let (ok, fs') := store_chunk storeOk fs1 uid idx data
        if ok then
          ((true, (addSet idx s.received_chunks).length, "Chunk uploaded successfully"),
           { st with fs := fs', sessions := markReceived st.sessions uid s idx })
        else
          ((false, s.received_chunks.length, "Failed to store chunk"),
           { st with fs := fs' })

/-- `UploadSession.get_missing_chunks`: `sorted(set(range(total)) - received)`. -/
def get_missing_chunks (s : UploadSession) : List Int :=
  sortL (((List.range s.total_chunks).map Int.ofNat).filter
    (fun i => ¬ i ∈ s.received_chunks))

/-- `UploadService.init_upload`; the fresh UUID is environment input. -/
def init_upload (st : SState) (newId : String) (chunkSize : Nat)
    (filename : String) (totalSize : Nat) (checksum : Option String) :
    (String × Nat) × SState :=
  let total := (totalSize + chunkSize - 1) / chunkSize
  let s : UploadSession :=
    { upload_id := newId, filename := filename, total_size := totalSize,
      total_chunks := total, chunk_size := chunkSize, checksum := checksum,
      received_chunks := [] }
  ((newId, chunkSize), { st with sessions := alSet newId s st.sessions })

/-- The status record built by `UploadService.get_upload_status`
(`total_chunks = none` is the partial, disk-only status). -/
structure StatusRec where
  upload_id : String
  total_chunks : Option Nat
  received_chunks : List Int
  is_complete : Bool
  deriving DecidableEq

/-- `UploadService.get_upload_status` (read-only: the session branch reads
the registry, the fallback branch only calls `list_chunks`). -/
def get_upload_status (st : SState) (uid : String) : Option StatusRec :=
  match alGet uid st.sessions with
  | none =>
    let rc := (list_chunks st.fs uid).1
    if rc = [] then none
    else some { upload_id := uid, total_chunks := none,
                received_chunks := sortL rc, is_complete := false }
  | some s =>
    some { upload_id := uid, total_chunks := some s.total_chunks,
           received_chunks := sortL s.received_chunks,
           is_complete := s.received_chunks.length == s.total_chunks }

/-- Python `max` over a nonempty list (`max(received_chunks)`). -/
def maxL : List Int → Int
  | [] => 0
  | x :: l => l.foldl max x

/-- The HTTP response of `GET /api/upload/status/{uploadId}` in `main.py`
(`notFound` is the 404 branch). -/
inductive StatusResp where
  | ok (uploadId : String) (totalChunks : Int) (receivedChunks : List Int)
      (isComplete : Bool)
  | notFound
  deriving DecidableEq

/-- `main.get_upload_status`: dispatch on the service status record,
inferring `totalChunks = max(received)+1` for the partial status. -/
def status_endpoint (st : SState) (uid : String) : StatusResp :=
  match get_upload_status st uid with
  | none => .notFound
  | some r =>
    match r.total_chunks with
    | none =>
      let rc := r.received_chunks
      if rc ≠ [] then
        let est := maxL rc + 1
        .ok uid est rc (((rc.length : Int)) == est)
      else .notFound
    | some t => .ok r.upload_id (t : Int) r.received_chunks r.is_complete

/-! ## SHA-256 (`hashlib.sha256` as used by `Storage.get_file_checksum`)

`hashlib` is the Python standard library, outside this repository; the
spec pins its contract ("SHA-256 of the file ... 64-char lowercase hex").
The algorithm is embedded concretely (FIPS 180-4) so the checksum claims
are about a real function.  Words are `Nat` reduced `% 2^32`. -/

/-- 32-bit right rotation. -/
def rotr (n x : Nat) : Nat :=
  (((x % 4294967296) >>> n) ||| ((x % 4294967296) <<< (32 - n))) % 4294967296

/-- SHA-256 `Ch e f g`. -/
def shaCh (e f g : Nat) : Nat := (e &&& f) ^^^ ((e ^^^ 4294967295) &&& g)

/-- SHA-256 `Maj a b c`. -/
def shaMaj (a b c : Nat) : Nat := (a &&& b) ^^^ (a &&& c) ^^^ (b &&& c)

/-- SHA-256 big sigma 0. -/
def bsig0 (x : Nat) : Nat := rotr 2 x ^^^ rotr 13 x ^^^ rotr 22 x

/-- SHA-256 big sigma 1. -/
def bsig1 (x : Nat) : Nat := rotr 6 x ^^^ rotr 11 x ^^^ rotr 25 x

/-- SHA-256 small sigma 0. -/
def ssig0 (x : Nat) : Nat := rotr 7 x ^^^ rotr 18 x ^^^ ((x % 4294967296) >>> 3)

/-- SHA-256 small sigma 1. -/
def ssig1 (x : Nat) : Nat := rotr 17 x ^^^ rotr 19 x ^^^ ((x % 4294967296) >>> 10)

/-- The 64 SHA-256 round constants (FIPS 180-4, in decimal). -/
def shaK : List Nat :=
  [1116352408, 1899447441, 3049323471, 3921009573, 961987163,
   1508970993, 2453635748, 2870763221, 3624381080, 310598401,
   607225278, 1426881987, 1925078388, 2162078206, 2614888103,
   3248222580, 3835390401, 4022224774, 264347078, 604807628,
   770255983, 1249150122, 1555081692, 1996064986, 2554220882,
   2821834349, 2952996808, 3210313671, 3336571891, 3584528711,
   113926993, 338241895, 666307205, 773529912, 1294757372,
   1396182291, 1695183700, 1986661051, 2177026350, 2456956037,
   2730485921, 2820302411, 3259730800, 3345764771, 3516065817,
   3600352804, 4094571909, 275423344, 430227734, 506948616,
   659060556, 883997877, 958139571, 1322822218, 1537002063,
   1747873779, 1955562222, 2024104815, 2227730452, 2361852424,
   2428436474, 2756734187, 3204031479, 3329325298]

/-- The SHA-256 working variables / hash state. -/
structure Hash8 where
  h0 : Nat
  h1 : Nat
  h2 : Nat
  h3 : Nat
  h4 : Nat
  h5 : Nat
  h6 : Nat
  h7 : Nat
  deriving DecidableEq

/-- The SHA-256 initial hash value (FIPS 180-4, in decimal). -/
def shaH0 : Hash8 :=
  ⟨1779033703, 3144134277, 1013904242, 2773480762,
   1359893119, 2600822924, 528734635, 1541459225⟩

/-- Big-endian bytes of a value, fixed width. -/
def beBytes : Nat → Nat → List Nat
  | 0, _ => []
  | k + 1, v => beBytes k (v / 256) ++ [v % 256]

/-- SHA-256 message padding: `0x80`, zeros to 56 mod 64, 64-bit bit length. -/
def sha256pad (m : List Nat) : List Nat :=
  let l := m.length
  let z := (64 + 56 - (l + 1) % 64) % 64
  m.map (· % 256) ++ [0x80] ++ List.replicate z 0 ++ beBytes 8 ((8 * l) % 18446744073709551616)

/-- Group bytes into 32-bit big-endian words. -/
def toWords : List Nat → List Nat
  | b0 :: b1 :: b2 :: b3 :: rest =>
    ((((b0 % 256) * 256 + b1 % 256) * 256 + b2 % 256) * 256 + b3 % 256) :: toWords rest
  | _ => []

/-- Split a padded message into 64-byte blocks. -/
def toBlocks64 (l : List Nat) : List (List Nat) :=
  let step := l.foldl
    (fun (acc : List (List Nat) × List Nat) b =>
      if acc.2.length = 63 then (acc.1 ++ [acc.2 ++ [b]], [])
      else (acc.1, acc.2 ++ [b]))
    ([], [])
  if step.2 = [] then step.1 else step.1 ++ [step.2]

/-- Extend the 16 message words to the 64-entry schedule. -/
def extendSchedule (ws : List Nat) : Nat → List Nat
  | 0 => ws
  | n + 1 =>
    let t := (ssig1 (ws.getD (ws.length - 2) 0) + ws.getD (ws.length - 7) 0 +
              ssig0 (ws.getD (ws.length - 15) 0) + ws.getD (ws.length - 16) 0) % 4294967296
    extendSchedule (ws ++ [t]) n

/-- One SHA-256 round. -/
def roundStep (s : Hash8) (kw : Nat × Nat) : Hash8 :=
  let t1 := (s.h7 + bsig1 s.h4 + shaCh s.h4 s.h5 s.h6 + kw.1 + kw.2) % 4294967296
  let t2 := (bsig0 s.h0 + shaMaj s.h0 s.h1 s.h2) % 4294967296
  ⟨(t1 + t2) % 4294967296, s.h0, s.h1, s.h2,
   (s.h3 + t1) % 4294967296, s.h4, s.h5, s.h6⟩

/-- SHA-256 compression of a single 64-byte block. -/
def compressBlock (h : Hash8) (block : List Nat) : Hash8 :=
  let ws := extendSchedule (toWords block) 48
  let s := (shaK.zip ws).foldl roundStep h
  ⟨(h.h0 + s.h0) % 4294967296, (h.h1 + s.h1) % 4294967296,
   (h.h2 + s.h2) % 4294967296, (h.h3 + s.h3) % 4294967296,
   (h.h4 + s.h4) % 4294967296, (h.h5 + s.h5) % 4294967296,
   (h.h6 + s.h6) % 4294967296, (h.h7 + s.h7) % 4294967296⟩

/-- A lowercase hexadecimal digit. -/
def hexDigit (n : Nat) : Char :=
  if n < 10 then Char.ofNat (48 + n) else Char.ofNat (97 + (n - 10))

/-- Fixed-width lowercase hexadecimal rendering of a value. -/
def hexOfNat : Nat → Nat → List Char
  | 0, _ => []
  | k + 1, v => hexOfNat k (v / 16) ++ [hexDigit (v % 16)]

/-- `hashlib.sha256(data).hexdigest()`. -/
def sha256hex (m : List Nat) : String :=
  let hf := (toBlocks64 (sha256pad m)).foldl compressBlock shaH0
  String.mk (hexOfNat 8 hf.h0 ++ hexOfNat 8 hf.h1 ++ hexOfNat 8 hf.h2 ++
    hexOfNat 8 hf.h3 ++ hexOfNat 8 hf.h4 ++ hexOfNat 8 hf.h5 ++
    hexOfNat 8 hf.h6 ++ hexOfNat 8 hf.h7)

/-- `Storage.get_file_checksum`: SHA-256 of the named completed file
(streaming in 4096-byte blocks in the source, which does not change the
digest).  The source would raise if the file were absent; in the one call
site the file was just written. -/
def get_file_checksum (fs : FS) (name : String) : String :=
  sha256hex ((alGet name fs.completed).getD [])

/-- `FileMetadata` of `models.py` (the ISO-8601 `timestamp` is real time
and carries no program logic; it is omitted). -/
structure FileMeta where
  uploadId : String
  filename : String
  size : Nat
  checksum : Option String
  fileType : String
  filepath : String
  deriving DecidableEq

/-- `UploadService.complete_upload`.  `Except.error missing` models the
`raise ValueError(f"Upload incomplete: missing chunks {missing}")` path,
carrying the sorted missing indices; `.ok (none, st)` models `return None`.
`hash` is the digest function (`sha256hex` for the real service; theorems
quantifying over `hash` hold for any digest).  The `if session.checksum`
truthiness test makes `None` and the empty string both falsy.
The returned path string is the completed file's name
(`<completed_root>/<filename>`). -/
def complete_upload (hash : List Nat → String) (st : SState) (uid : String) :
    Except (List Int) (Option (String × FileMeta) × SState) :=
  match alGet uid st.sessions with
  | none => .ok (none, st)
  | some s =>
    if s.received_chunks.length ≠ s.total_chunks then
      .error (get_missing_chunks s)
    else
      match reassemble_file st.fs uid s.total_chunks s.filename (some s.total_size) with
      | (none, fs1) => .ok (none, { st with fs := fs1 })
      | (some _out, fs1) =>
        let checksum :=
          match s.checksum with
          | none => none
          | some c => if c = "" then none
                      else some (hash ((alGet s.filename fs1.completed).getD []))
        let md : FileMeta :=
          { uploadId := uid, filename := s.filename, size := s.total_size,
            checksum := checksum, fileType := detect_file_type s.filename,
            filepath := s.filename }
        let fs2 := cleanup_chunks fs1 uid
        .ok (some (s.filename, md), { fs := fs2, sessions := alErase uid st.sessions })

/-! ## The post-completion sinks (`ai_integration.py`) and the
`POST /api/upload/complete` boundary (`main.py`) -/

/-- JSON whitespace. -/
def isJsonWs (c : Char) : Bool := c = ' ' ∨ c = '\t' ∨ c = '\n' ∨ c = '\r'

/-- ASCII digit. -/
def isDigitCh (c : Char) : Bool := '0' ≤ c ∧ c ≤ '9'

/-- Parsing modes for the fuel-based JSON checker: a single value, the
tail of an array, or the tail of an object. -/
inductive JMode where
  | val
  | arrTail
  | objTail
  deriving DecidableEq

/-- Consume characters of a simple number token. -/
def eatNumber (cs : List Char) : List Char :=
  let cs1 := cs.dropWhile isDigitCh
  match cs1 with
  | '.' :: r => (r.dropWhile isDigitCh).dropWhile
      (fun c => isDigitCh c ∨ c = 'e' ∨ c = 'E' ∨ c = '+' ∨ c = '-')
  | 'e' :: r => r.dropWhile (fun c => isDigitCh c ∨ c = '+' ∨ c = '-')
  | 'E' :: r => r.dropWhile (fun c => isDigitCh c ∨ c = '+' ∨ c = '-')
  | r => r

/-- Consume a string body up to the closing quote (escapes skip a char). -/
def eatString : Nat → List Char → Option (List Char)
  | 0, _ => none
  | _, [] => none
  | fuel + 1, c :: r =>
    if c = '"' then some r
    else if c = '\\' then
      match r with
      | [] => none
      | _ :: r2 => eatString fuel r2
    else eatString fuel r

/-- Fuel-based checker for a JSON value (`parseJ fuel .val cs` returns the
rest of the input after one value). -/
def parseJ : Nat → JMode → List Char → Option (List Char)
  | 0, _, _ => none
  | fuel + 1, .val, cs =>
    match cs.dropWhile isJsonWs with
    | [] => none
    | c :: r =>
      if c = 'n' then
        match r with
        | 'u' :: 'l' :: 'l' :: r2 => some r2
        | _ => none
      else if c = 't' then
        match r with
        | 'r' :: 'u' :: 'e' :: r2 => some r2
        | _ => none
      else if c = 'f' then
        match r with
        | 'a' :: 'l' :: 's' :: 'e' :: r2 => some r2
        | _ => none
      else if c = '"' then eatString fuel r
      else if c = '-' then
        match r with
        | d :: _ => if isDigitCh d then some (eatNumber r) else none
        | [] => none
      else if isDigitCh c then some (eatNumber (c :: r))
      else if c = '[' then
        match r.dropWhile isJsonWs with
        | ']' :: r2 => some r2
        | r2 => do
          let r3 ← parseJ fuel .val r2
          parseJ fuel .arrTail r3
      else if c = '{' then
        match r.dropWhile isJsonWs with
        | '}' :: r2 => some r2
        | '"' :: r2 => do
          let r3 ← eatString fuel r2
          match r3.dropWhile isJsonWs with
          | ':' :: r4 => do
            let r5 ← parseJ fuel .val r4
            parseJ fuel .objTail r5
          | _ => none
        | _ => none
      else none
  | fuel + 1, .arrTail, cs =>
    match cs.dropWhile isJsonWs with
    | ']' :: r => some r
    | ',' :: r => do
      let r2 ← parseJ fuel .val r
      parseJ fuel .arrTail r2
    | _ => none
  | fuel + 1, .objTail, cs =>
    match cs.dropWhile isJsonWs with
    | '}' :: r => some r
    | ',' :: r =>
      match r.dropWhile isJsonWs with
      | '"' :: r2 => do
        let r3 ← eatString fuel r2
        match r3.dropWhile isJsonWs with
        | ':' :: r4 => do
          let r5 ← parseJ fuel .val r4
          parseJ fuel .objTail r5
        | _ => none
      | _ => none
    | _ => none

/-- Modelled from the spec: `json.loads` (Python standard library, outside
this repository; §4.4 requires lines to "parse as independent JSON
values").  Succeeds exactly when the whole input is one JSON value with
optional surrounding whitespace; in particular it fails on the empty
string. -/
def jsonLoadsOk (s : String) : Bool :=
  match parseJ (2 * s.length + 4) .val s.data with
  | some rest => rest.dropWhile isJsonWs = []
  | none => false

/-- The lines of a Python text-mode file, terminators removed: Python's
line iteration yields each `\n`-terminated piece (keeping the terminator,
which `strip()` later removes) and no empty final line after a trailing
`\n`. -/
def pyLines (s : String) : List String :=
  let parts := splitStr '\n' s
  match parts.getLast? with
  | some "" => parts.dropLast
  | _ => parts

/-- `pathlib.Path(...).suffix`: the final extension with its dot, empty
when the last dot is the first or last character. -/
def pySuffix (name : String) : String :=
  let cs := name.data
  let rec lastDot : List Char → Option Nat
    | [] => none
    | c :: r =>
      match lastDot r with
      | some i => some (i + 1)
      | none => if c = '.' then some 0 else none
  match lastDot cs with
  | some i => if 0 < i ∧ i + 1 < cs.length then String.mk (cs.drop i) else ""
  | none => ""

/-- The `.jsonl` loop of `AIIntegration.validate_dataset`: stop after 10
lines, `json.loads(line.strip())` on each earlier line, reject with the
1-based line number on the first failure.  `jloads` is the `json.loads`
success predicate (instantiate with `jsonLoadsOk`). -/
def checkJsonlLines (jloads : String → Bool) : List String → Nat → Bool × Option String
  | [], _ => (true, none)
  | l :: ls, i =>
    if 10 ≤ i then (true, none)
    else if jloads (pyStrip l) then checkJsonlLines jloads ls (i + 1)
    else (false, some ("Invalid JSONL format at line " ++ toString (i + 1)))

/-- `AIIntegration.validate_dataset` on the lines of the file at
`filepath` (non-dataset files skip; unrecognized extensions reject;
`.jsonl` runs the first-10-lines check).  The source's bad-extension
message also interpolates the Python repr of the extension set; that
suffix carries no logic and is left off here. -/
def validate_dataset (jloads : String → Bool) (fileLines : List String)
    (filename : String) (file_type : String) : Bool × Option String :=
  if file_type ≠ "dataset" then (true, none)
  else
    let ext := strLower (pySuffix filename)
    if ¬ ext ∈ [".jsonl", ".json", ".csv", ".parquet", ".tsv", ".txt"] then
      (false, some ("Invalid dataset format: " ++ ext))
    else if ext = ".jsonl" then checkJsonlLines jloads fileLines 0
    else (true, none)

/-- `AIIntegration.validate_schema`: stub, always accepts. -/
def validate_schema (_fileLines : List String) (_file_type : String) :
    Bool × Option String :=
  (true, none)

/-- `AIIntegration.scan_file`: stub, always safe (scan results carry no
decision). -/
def scan_file (_fileLines : List String) : Bool × Option String :=
  (true, none)

/-- Bytes of an ASCII file decoded to the string Python reads in text
mode (the completed files examined by the validator are UTF-8 text; the
embedding covers the single-byte range). -/
def asciiDecode (bs : List Nat) : String :=
  String.mk (bs.map (fun b => Char.ofNat (b % 256)))

/-- The HTTP outcome of `POST /api/upload/complete/{uploadId}`:
`ok` is the 200 response, `clientError` the 400 `HTTPException`. -/
inductive CompleteResp where
  | ok (filepath : String) (md : FileMeta) (downstreamJobId : Option String)
  | clientError (detail : String)
  deriving DecidableEq

/-- `main.complete_upload`: runs the engine, surfaces `ValueError` and
`None` as 400, then runs the sink pipeline; a format-validation veto
unlinks the reassembled file before raising 400.  Schema validation and
the security scan are accepting stubs; the registry write and the
notification stubs return no job id and touch no modelled state. -/
def complete_endpoint (hash : List Nat → String) (jloads : String → Bool)
    (st : SState) (uid : String) : CompleteResp × SState :=
  match complete_upload hash st uid with
  | .error missing =>
    (.clientError ("Upload incomplete: missing chunks " ++ toString missing), st)
  | .ok (none, st') => (.clientError "Failed to complete upload", st')
  | .ok (some (p, md), st') =>
    let content := (alGet md.filename st'.fs.completed).getD []
    let lines := pyLines (asciiDecode content)
    match validate_dataset jloads lines md.filename md.fileType with
    | (false, err) =>
      (.clientError ("Validation failed: " ++ err.getD "None"),
       { st' with fs := { st'.fs with completed := alErase md.filename st'.fs.completed } })
    | (true, _) => (.ok p md none, st')

/-- Modelled from the spec (claim C6's reading of §4.4): "for `.jsonl`,
must parse at least the first 10 non-empty lines as independent JSON
values; any parse failure in that prefix is a hard reject" — the sink
this spec sentence describes accepts exactly when the first 10 non-empty
(after stripping) lines all parse. -/
def validateJsonlSpecC6 (jloads : String → Bool) (fileLines : List String) : Bool :=
  (((fileLines.filter (fun l => pyStrip l ≠ "")).take 10).all
    (fun l => jloads (pyStrip l)))

/-- A client uploading the chunk contents `cs` of one session in the
arrival order `order` (each call `upload_chunk(uid, i, cs[i], tc)` with a
successful store). -/
def uploadMany (st : SState) (uid : String) (cs : List (List Nat)) (tc : Int)
    (order : List Nat) : SState :=
  order.foldl
    (fun (acc : SState) (i : Nat) =>
      (upload_chunk true acc uid (Int.ofNat i) (cs.getD i []) tc).2) st

/-- The received-set after acknowledging the indices of `l` in order
(as `upload_chunk` does, one `addSet` per call). -/
def addAll (r : List Int) (l : List Nat) : List Int :=
  l.foldl (fun acc i => addSet (Int.ofNat i) acc) r

/-! ## Helper lemmas about the state primitives -/

theorem alGet_alSet_self {κ ν : Type} [DecidableEq κ] (k : κ) (v : ν)
    (l : List (κ × ν)) : alGet k (alSet k v l) = some v := by
  simp [alSet, alGet]

theorem alGet_alErase {κ ν : Type} [DecidableEq κ] (k k' : κ)
    (l : List (κ × ν)) :
    alGet k' (alErase k l) = if k' = k then none else alGet k' l := by
  induction l with
  | nil => simp [alErase, alGet]
  | cons p l ih =>
    rw [alErase]
    by_cases hp : p.1 = k
    · rw [if_pos hp, ih]
      by_cases hk : k' = k
      · simp [hk]
      · rw [if_neg hk, if_neg hk, alGet, if_neg (fun he => hk (he.symm.trans hp))]
    · rw [if_neg hp]
      by_cases hq : p.1 = k'
      · have hk : ¬ k' = k := fun he => hp (hq.trans he)
        rw [if_neg hk, alGet, if_pos hq, alGet, if_pos hq]
      · rw [alGet, if_neg hq, ih]
        by_cases hk : k' = k
        · rw [if_pos hk, if_pos hk]
        · rw [if_neg hk, if_neg hk, alGet, if_neg hq]

theorem alGet_alErase_self {κ ν : Type} [DecidableEq κ] (k : κ)
    (l : List (κ × ν)) : alGet k (alErase k l) = none := by
  simp [alGet_alErase]

theorem alGet_alSet_ne {κ ν : Type} [DecidableEq κ] {k k' : κ} (v : ν)
    (l : List (κ × ν)) (h : k' ≠ k) :
    alGet k' (alSet k v l) = alGet k' l := by
  rw [alSet, alGet, if_neg (fun he => h he.symm), alGet_alErase, if_neg h]

theorem alGet_none_iff {κ ν : Type} [DecidableEq κ] (k : κ)
    (l : List (κ × ν)) : alGet k l = none ↔ ∀ p ∈ l, p.1 ≠ k := by
  induction l with
  | nil => simp [alGet]
  | cons p l ih =>
    by_cases hp : p.1 = k <;> simp [alGet, hp, ih]

theorem alGet_filter_ne_key (uid : String)
    (l : List ((String × Int) × List Nat)) (j : Int) :
    alGet (uid, j) (l.filter (fun p => p.1.1 != uid)) = none := by
  rw [alGet_none_iff]
  intro p hp
  have := List.of_mem_filter hp
  simp only [bne_iff_ne, ne_eq] at this
  intro hk
  exact this (by rw [hk])

theorem alGet_filter_other (uid : String)
    (l : List ((String × Int) × List Nat)) (k : String × Int) (h : k.1 ≠ uid) :
    alGet k (l.filter (fun p => p.1.1 != uid)) = alGet k l := by
  induction l with
  | nil => simp [alGet]
  | cons p l ih =>
    rw [List.filter_cons]
    by_cases hp : p.1 = k
    · have hb : (p.1.1 != uid) = true := by
        rw [bne_iff_ne]
        rw [hp]
        exact h
      rw [if_pos hb, alGet, if_pos hp, alGet, if_pos hp]
    · by_cases hu : (p.1.1 != uid) = true
      · rw [if_pos hu, alGet, if_neg hp, ih, alGet, if_neg hp]
      · rw [if_neg hu, ih, alGet, if_neg hp]

theorem mem_insertDir (d x : String) (l : List String) :
    x ∈ insertDir d l ↔ x = d ∨ x ∈ l := by
  unfold insertDir
  by_cases h : d ∈ l
  · simp only [if_pos h]
    constructor
    · intro hx; exact Or.inr hx
    · rintro (rfl | hx) <;> [exact h; exact hx]
  · simp [if_neg h]

theorem self_mem_insertDir (d : String) (l : List String) :
    d ∈ insertDir d l := (mem_insertDir d d l).mpr (Or.inl rfl)

theorem insertDir_mem (d : String) (l : List String) (h : d ∈ l) :
    insertDir d l = l := by simp [insertDir, h]

theorem mem_removeDir (d x : String) (l : List String) :
    x ∈ removeDir d l ↔ x ∈ l ∧ x ≠ d := by
  induction l with
  | nil => simp [removeDir]
  | cons y l ih =>
    rw [removeDir]
    by_cases hy : y = d
    · subst hy
      rw [if_pos rfl, ih]
      constructor
      · rintro ⟨hx, hne⟩
        exact ⟨List.mem_cons_of_mem _ hx, hne⟩
      · rintro ⟨hx, hne⟩
        rcases List.mem_cons.mp hx with rfl | hx
        · exact absurd rfl hne
        · exact ⟨hx, hne⟩
    · rw [if_neg hy]
      constructor
      · intro hx
        rcases List.mem_cons.mp hx with rfl | hx
        · exact ⟨List.mem_cons_self _ _, hy⟩
        · have h2 := ih.mp hx
          exact ⟨List.mem_cons_of_mem _ h2.1, h2.2⟩
      · rintro ⟨hx, hne⟩
        rcases List.mem_cons.mp hx with rfl | hx
        · exact List.mem_cons_self _ _
        · exact List.mem_cons_of_mem _ (ih.mpr ⟨hx, hne⟩)

theorem not_mem_removeDir_self (d : String) (l : List String) :
    d ∉ removeDir d l := by
  intro h
  exact ((mem_removeDir d d l).mp h).2 rfl

theorem mem_insSorted {α : Type} [LinearOrder α] (a x : α) (l : List α) :
    x ∈ insSorted a l ↔ x = a ∨ x ∈ l := by
  induction l with
  | nil => simp [insSorted]
  | cons b l ih =>
    by_cases h : a ≤ b
    · simp [insSorted, h]
    · simp only [insSorted, if_neg h, List.mem_cons, ih]
      tauto

theorem mem_sortL {α : Type} [LinearOrder α] (x : α) (l : List α) :
    x ∈ sortL l ↔ x ∈ l := by
  induction l with
  | nil => simp [sortL]
  | cons a l ih =>
    simp only [sortL, List.foldr] at *
    rw [mem_insSorted, ih]
    simp

theorem sorted_insSorted {α : Type} [LinearOrder α] (a : α) (l : List α)
    (h : l.Sorted (· ≤ ·)) : (insSorted a l).Sorted (· ≤ ·) := by
  induction l with
  | nil => simp [insSorted]
  | cons b l ih =>
    rw [List.sorted_cons] at h
    by_cases hab : a ≤ b
    · rw [insSorted, if_pos hab, List.sorted_cons]
      refine ⟨?_, by rw [List.sorted_cons]; exact h⟩
      intro c hc
      rcases List.mem_cons.mp hc with rfl | hc
      · exact hab
      · exact le_trans hab (h.1 c hc)
    · rw [insSorted, if_neg hab, List.sorted_cons]
      refine ⟨?_, ih h.2⟩
      intro c hc
      rcases (mem_insSorted a c l).mp hc with rfl | hc
      · exact le_of_not_le hab
      · exact h.1 c hc

theorem sorted_sortL {α : Type} [LinearOrder α] (l : List α) :
    (sortL l).Sorted (· ≤ ·) := by
  induction l with
  | nil => simp [sortL]
  | cons a l ih => exact sorted_insSorted a _ ih

theorem mem_addSet (x i : Int) (r : List Int) :
    x ∈ addSet i r ↔ x = i ∨ x ∈ r := by
  unfold addSet
  by_cases h : i ∈ r
  · simp only [if_pos h]
    constructor
    · exact Or.inr
    · rintro (rfl | hx) <;> [exact h; exact hx]
  · simp [if_neg h]

theorem addSet_nodup (i : Int) (r : List Int) (h : r.Nodup) :
    (addSet i r).Nodup := by
  unfold addSet
  by_cases hm : i ∈ r
  · simpa [if_pos hm]
  · simpa [if_neg hm, List.nodup_cons, hm]

theorem addSet_mem_eq (i : Int) (r : List Int) (h : i ∈ r) :
    addSet i r = r := by simp [addSet, h]

theorem mem_chunkIndices (fs : FS) (uid : String) (j : Int) :
    j ∈ chunkIndices fs uid ↔ ∃ p ∈ fs.chunks, p.1 = (uid, j) := by
  unfold chunkIndices
  rw [List.mem_filterMap]
  constructor
  · rintro ⟨p, hp, he⟩
    by_cases h : p.1.1 = uid
    · rw [if_pos h] at he
      refine ⟨p, hp, ?_⟩
      cases he
      exact Prod.ext h rfl
    · rw [if_neg h] at he; cases he
  · rintro ⟨p, hp, he⟩
    exact ⟨p, hp, by rw [he]; simp⟩

theorem alGet_isSome_iff {κ ν : Type} [DecidableEq κ] (k : κ)
    (l : List (κ × ν)) :
    (alGet k l).isSome = true ↔ ∃ p ∈ l, p.1 = k := by
  induction l with
  | nil => simp [alGet]
  | cons p l ih =>
    by_cases hp : p.1 = k
    · simp [alGet, hp]
    · simp [alGet, hp, ih]

theorem mem_list_chunks (fs : FS) (uid : String) (j : Int) :
    j ∈ (list_chunks fs uid).1 ↔ (alGet (uid, j) fs.chunks).isSome = true := by
  unfold list_chunks
  rw [mem_sortL, List.mem_dedup, mem_chunkIndices, ← alGet_isSome_iff]

theorem sameSet_iff (a b : List Int) :
    sameSet a b = true ↔ ∀ x : Int, x ∈ a ↔ x ∈ b := by
  unfold sameSet
  rw [Bool.and_eq_true, List.all_eq_true, List.all_eq_true]
  constructor
  · rintro ⟨h1, h2⟩ x
    constructor
    · intro hx; simpa using h1 x hx
    · intro hx; simpa using h2 x hx
  · intro h
    exact ⟨fun x hx => by simpa using (h x).mp hx,
           fun x hx => by simpa using (h x).mpr hx⟩

theorem alGet_updSession_self (uid : String) (s : UploadSession)
    (l : List (String × UploadSession)) (h : (alGet uid l).isSome) :
    alGet uid (updSession uid s l) = some s := by
  induction l with
  | nil => simp [alGet] at h
  | cons p l ih =>
    by_cases hp : p.1 = uid
    · simp [updSession, alGet, hp]
    · rw [alGet, if_neg hp] at h
      simpa [updSession, alGet, hp] using ih h

theorem alGet_updSession_ne (uid u : String) (s : UploadSession)
    (l : List (String × UploadSession)) (h : u ≠ uid) :
    alGet u (updSession uid s l) = alGet u l := by
  induction l with
  | nil => rfl
  | cons p l ih =>
    rw [updSession, List.map_cons]
    by_cases hp : p.1 = uid
    · rw [if_pos hp]
      have h1 : ¬ p.1 = u := fun he => h (he.symm.trans hp)
      rw [alGet, alGet, if_neg h1, if_neg h1]
      exact ih
    · rw [if_neg hp, alGet, alGet]
      by_cases hq : p.1 = u
      · rw [if_pos hq, if_pos hq]
      · rw [if_neg hq, if_neg hq]
        exact ih

theorem alGet_markReceived_self (sessions : List (String × UploadSession))
    (uid : String) (s : UploadSession) (idx : Int)
    (h : alGet uid sessions = some s) :
    alGet uid (markReceived sessions uid s idx) =
      some { s with received_chunks := addSet idx s.received_chunks } := by
  unfold markReceived
  by_cases hm : idx ∈ s.received_chunks
  · rw [if_pos hm, addSet_mem_eq idx _ hm, h]
  · rw [if_neg hm, alGet_updSession_self uid _ sessions (by rw [h]; rfl)]
    simp [addSet, hm]

theorem getD_range_map {α : Type} (cs : List α) (d : α) :
    (List.range cs.length).map (fun i => cs.getD i d) = cs := by
  induction cs with
  | nil => simp
  | cons c cs ih =>
    rw [List.length_cons, List.range_succ_eq_map, List.map_cons, List.map_map]
    have h2 : (List.range cs.length).map ((fun i => (c :: cs).getD i d) ∘ Nat.succ)
        = (List.range cs.length).map (fun i => cs.getD i d) := by
      apply List.map_congr_left
      intro i _
      simp [Function.comp, List.getD_cons_succ]
    rw [List.getD_cons_zero, h2, ih]

/-! ## Shape of the SHA-256 hex digest -/

theorem hexOfNat_length (k v : Nat) : (hexOfNat k v).length = k := by
  induction k generalizing v with
  | zero => rfl
  | succ k ih =>
    rw [hexOfNat, List.length_append, ih]
    rfl

theorem hexDigit_mem_of_lt : ∀ n < 16, hexDigit n ∈ "0123456789abcdef".data := by
  decide

theorem hexOfNat_chars (k v : Nat) :
    ∀ c ∈ hexOfNat k v, c ∈ "0123456789abcdef".data := by
  induction k generalizing v with
  | zero => intro c hc; simp [hexOfNat] at hc
  | succ k ih =>
    intro c hc
    rw [hexOfNat, List.mem_append] at hc
    rcases hc with hc | hc
    · exact ih _ c hc
    · rcases List.mem_singleton.mp hc with rfl
      exact hexDigit_mem_of_lt _ (Nat.mod_lt _ (by norm_num))

theorem sha256hex_length (m : List Nat) : (sha256hex m).length = 64 := by
  rw [sha256hex]
  show (String.mk _).length = 64
  simp [String.length, hexOfNat_length]

theorem sha256hex_chars (m : List Nat) :
    ∀ c ∈ (sha256hex m).data, c ∈ "0123456789abcdef".data := by
  rw [sha256hex]
  intro c hc
  simp only [String.data] at hc
  simp only [List.mem_append] at hc
  rcases hc with ((((((h | h) | h) | h) | h) | h) | h) | h <;>
    exact hexOfNat_chars _ _ c h

set_option maxRecDepth 10000 in
/-- Sanity check of the embedded SHA-256 against the FIPS 180-4 test
vector for the empty message. -/
theorem sha256hex_empty_vector :
    sha256hex [] = "e3b0c44298fc1c149afbf4c8996fb92427ae41e4649b934ca495991b7852b855" := by
  decide

set_option maxRecDepth 10000 in
/-- Sanity check of the embedded SHA-256 against the FIPS 180-4 test
vector for the three-byte message `abc`. -/
theorem sha256hex_abc_vector :
    sha256hex [0x61, 0x62, 0x63] =
      "ba7816bf8f01cfea414140de5dae2223b00361a396177a9cb410ff61f20015ad" := by
  decide

/-! ## Claim theorems -/

/-- C10: the query operations `chunk_exists`, `get_chunk` and
`get_chunk_size` are not read-only — each goes through `get_chunk_path`,
which creates `<uploads_root>/<upload_id>/` (parents included) as a side
effect whenever it does not exist, even for upload ids that were never
initialized; only `list_chunks` leaves the filesystem unchanged. -/
theorem c10_query_ops_create_directory (fs : FS) (uid : String) (i : Int) :
    ((chunk_exists fs uid i).2 = { fs with dirs := insertDir uid fs.dirs } ∧
      uid ∈ (chunk_exists fs uid i).2.dirs) ∧
    ((get_chunk fs uid i).2 = { fs with dirs := insertDir uid fs.dirs } ∧
      uid ∈ (get_chunk fs uid i).2.dirs) ∧
    ((get_chunk_size fs uid i).2 = { fs with dirs := insertDir uid fs.dirs } ∧
      uid ∈ (get_chunk_size fs uid i).2.dirs) ∧
    (uid ∉ fs.dirs →
      (chunk_exists fs uid i).2 ≠ fs ∧ (get_chunk fs uid i).2 ≠ fs ∧
        (get_chunk_size fs uid i).2 ≠ fs) ∧
    (list_chunks fs uid).2 = fs := by
  refine ⟨⟨rfl, self_mem_insertDir uid fs.dirs⟩,
    ⟨rfl, self_mem_insertDir uid fs.dirs⟩,
    ⟨rfl, self_mem_insertDir uid fs.dirs⟩, ?_, rfl⟩
  intro h
  have hne : { fs with dirs := insertDir uid fs.dirs } ≠ fs := by
    intro he
    apply h
    have hm := self_mem_insertDir uid fs.dirs
    rw [show insertDir uid fs.dirs = fs.dirs from congrArg FS.dirs he] at hm
    exact hm
  exact ⟨hne, hne, hne⟩

/-- Witness for C10 on a filesystem with no directories: the existence
query mutates the filesystem while `list_chunks` does not. -/
theorem c10_witness :
    (chunk_exists ⟨[], [], []⟩ "u" 0).2 ≠ (⟨[], [], []⟩ : FS) ∧
    (list_chunks (⟨[], [], []⟩ : FS) "u").2 = (⟨[], [], []⟩ : FS) :=
  ⟨((c10_query_ops_create_directory ⟨[], [], []⟩ "u" 0).2.2.2.1
      (by decide)).1,
   (c10_query_ops_create_directory ⟨[], [], []⟩ "u" 0).2.2.2.2⟩

/-- C4: `upload_chunk` resolves its failure conditions in order — unknown
session, then invalid index, then total-chunks mismatch, then store
failure — returning the corresponding failure message, and on every
failure return the registry (hence the session's `received_chunks` set)
is unchanged. -/
theorem c4_upload_chunk_failure_order (st : SState) (uid : String) (idx : Int)
    (data : List Nat) (tc : Int) (ok : Bool) :
    (alGet uid st.sessions = none →
      upload_chunk ok st uid idx data tc =
        ((false, 0, "Upload session " ++ uid ++ " not found"), st)) ∧
    (∀ s, alGet uid st.sessions = some s →
      (idx < 0 ∨ (s.total_chunks : Int) ≤ idx) →
      upload_chunk ok st uid idx data tc =
        ((false, s.received_chunks.length, "Invalid chunk index: " ++ toString idx), st)) ∧
    (∀ s, alGet uid st.sessions = some s →
      ¬(idx < 0 ∨ (s.total_chunks : Int) ≤ idx) →
      tc ≠ (s.total_chunks : Int) →
      upload_chunk ok st uid idx data tc =
        ((false, s.received_chunks.length,
          "Total chunks mismatch: expected " ++ toString s.total_chunks ++
            ", got " ++ toString tc), st)) ∧
    (∀ s, alGet uid st.sessions = some s →
      ¬(idx < 0 ∨ (s.total_chunks : Int) ≤ idx) →
      tc = (s.total_chunks : Int) →
      alGet (uid, idx) st.fs.chunks = none →
      upload_chunk false st uid idx data tc =
        ((false, s.received_chunks.length, "Failed to store chunk"),
         { st with fs := { st.fs with dirs := insertDir uid st.fs.dirs } })) ∧
    (∀ res st', upload_chunk ok st uid idx data tc = (res, st') →
      res.1 = false → st'.sessions = st.sessions) := by
  refine ⟨?_, ?_, ?_, ?_, ?_⟩
  · intro h
    simp [upload_chunk, h]
  · intro s hs hidx
    simp [upload_chunk, hs, if_pos hidx]
  · intro s hs hidx htc
    simp only [upload_chunk, hs, if_neg hidx, if_pos htc]
  · intro s hs hidx htc hchunk
    simp [upload_chunk, hs, if_neg hidx, htc, chunk_exists, get_chunk_path,
      hchunk, store_chunk]
  · intro res st' h hres
    cases hs : alGet uid st.sessions with
    | none =>
      rw [upload_chunk] at h
      rw [hs] at h
      cases h
      rfl
    | some s =>
      rw [upload_chunk] at h
      rw [hs] at h
      simp only at h
      by_cases hidx : idx < 0 ∨ (s.total_chunks : Int) ≤ idx
      · rw [if_pos hidx] at h
        cases h
        rfl
      · rw [if_neg hidx] at h
        by_cases htc : tc ≠ (s.total_chunks : Int)
        · rw [if_pos htc] at h
          cases h
          rfl
        · rw [if_neg htc] at h
          simp only [chunk_exists, get_chunk_path, get_chunk_size, store_chunk] at h
          by_cases hidem :
              ((if (alGet (uid, idx) st.fs.chunks).isSome then
                 ((alGet (uid, idx) st.fs.chunks).map List.length == some data.length)
               else false) = true)
          · rw [if_pos hidem] at h
            cases h
            simp at hres
          · rw [if_neg hidem] at h
            cases hok : ok with
            | true =>
              rw [hok] at h
              rw [if_pos rfl] at h
              cases h
              simp at hres
            | false =>
              rw [hok] at h
              rw [if_neg (by simp)] at h
              cases h
              rfl

/-- Witness for C4: a session expecting one chunk, a failing store —
`upload_chunk` reports the store failure and the registry is unchanged. -/
theorem c4_witness :
    upload_chunk false ⟨⟨[], [], []⟩, [("u", ⟨"u", "f.bin", 1, 1, 1, none, []⟩)]⟩
        "u" 0 [7] 1 =
      ((false, 0, "Failed to store chunk"),
       { (⟨⟨[], [], []⟩, [("u", ⟨"u", "f.bin", 1, 1, 1, none, []⟩)]⟩ : SState) with
         fs := { (⟨[], [], []⟩ : FS) with dirs := insertDir "u" [] } }) :=
  (c4_upload_chunk_failure_order
    ⟨⟨[], [], []⟩, [("u", ⟨"u", "f.bin", 1, 1, 1, none, []⟩)]⟩ "u" 0 [7] 1
    false).2.2.2.1 ⟨"u", "f.bin", 1, 1, 1, none, []⟩ (by decide) (by decide)
    (by decide) (by decide)

theorem insertDir_fs_self (fs : FS) (uid : String) (h : uid ∈ fs.dirs) :
    { fs with dirs := insertDir uid fs.dirs } = fs := by
  rw [insertDir_mem uid fs.dirs h]

theorem markReceived_mem_eq (sessions : List (String × UploadSession))
    (uid : String) (s : UploadSession) (idx : Int)
    (h : idx ∈ s.received_chunks) :
    markReceived sessions uid s idx = sessions := by
  rw [markReceived, if_pos h]

/-- A repeated `upload_chunk` against a session that already acknowledged
the index and a committed chunk of the right size is a strict no-op
taking the idempotency shortcut. -/
theorem upload_chunk_noop (st₁ : SState) (uid : String) (idx : Int)
    (data : List Nat) (tc : Int) (s' : UploadSession) (b : Bool)
    (hs : alGet uid st₁.sessions = some s')
    (hidx : ¬(idx < 0 ∨ (s'.total_chunks : Int) ≤ idx))
    (htc : tc = (s'.total_chunks : Int))
    (d : List Nat)
    (hd : alGet (uid, idx) st₁.fs.chunks = some d)
    (hlen : d.length = data.length)
    (hdir : uid ∈ st₁.fs.dirs)
    (hrec : idx ∈ s'.received_chunks) :
    upload_chunk b st₁ uid idx data tc =
      ((true, s'.received_chunks.length, "Chunk already uploaded (idempotent)"), st₁) := by
  rw [upload_chunk, hs]
  simp only [chunk_exists, get_chunk_path, get_chunk_size]
  rw [if_neg hidx, if_neg (by rw [htc]; exact fun hh => hh rfl)]
  rw [if_pos (by rw [hd]; simp [hlen])]
  rw [addSet_mem_eq idx _ hrec, markReceived_mem_eq _ _ _ _ hrec]
  rw [insertDir_fs_self st₁.fs uid hdir]

/-- C3: idempotence of `upload_chunk` — (a) after any successful
`upload_chunk(uid, i, data, tc)`, repeating the identical call (whatever
the store-environment outcome `b`) returns success with the
`"Chunk already uploaded (idempotent)"` message, the same received count,
and leaves the entire service state exactly as after the first call, so
`n ≥ 1` identical calls end in the state of one call; (b) whenever a
committed chunk of the same size as `data` already exists for a valid
index, the call takes the shortcut: it succeeds with the idempotent
message, marks the index received if needed, and does not rewrite the
chunk file (the chunk store is untouched). -/
theorem c3_upload_chunk_idempotent (st : SState) (uid : String) (idx : Int)
    (data : List Nat) (tc : Int) :
    (∀ res st₁, upload_chunk true st uid idx data tc = (res, st₁) →
      res.1 = true → ∀ b, upload_chunk b st₁ uid idx data tc =
        ((true, res.2.1, "Chunk already uploaded (idempotent)"), st₁)) ∧
    (∀ s d, alGet uid st.sessions = some s →
      ¬(idx < 0 ∨ (s.total_chunks : Int) ≤ idx) →
      tc = (s.total_chunks : Int) →
      alGet (uid, idx) st.fs.chunks = some d →
      d.length = data.length →
      ∀ b, (upload_chunk b st uid idx data tc =
        ((true, (addSet idx s.received_chunks).length,
          "Chunk already uploaded (idempotent)"),
         { st with fs := { st.fs with dirs := insertDir uid st.fs.dirs },
                   sessions := markReceived st.sessions uid s idx })) ∧
        (upload_chunk b st uid idx data tc).2.fs.chunks = st.fs.chunks ∧
        alGet uid (markReceived st.sessions uid s idx) =
          some { s with received_chunks := addSet idx s.received_chunks }) := by
  constructor
  · intro res st₁ h hres b
    cases hsess : alGet uid st.sessions with
    | none =>
      rw [upload_chunk, hsess] at h
      cases h
      simp at hres
    | some s =>
      by_cases hidx : idx < 0 ∨ (s.total_chunks : Int) ≤ idx
      · rw [upload_chunk, hsess] at h
        simp only [if_pos hidx] at h
        cases h
        simp at hres
      · by_cases htc : tc ≠ (s.total_chunks : Int)
        · rw [upload_chunk, hsess] at h
          simp only [if_neg hidx, if_pos htc] at h
          cases h
          simp at hres
        · push_neg at htc
          by_cases hidem :
              ((if (alGet (uid, idx) st.fs.chunks).isSome = true then
                 ((alGet (uid, idx) st.fs.chunks).map List.length == some data.length)
               else false) = true)
          · have heq : upload_chunk true st uid idx data tc =
                ((true, (addSet idx s.received_chunks).length,
                  "Chunk already uploaded (idempotent)"),
                 { st with fs := { st.fs with dirs := insertDir uid st.fs.dirs },
                           sessions := markReceived st.sessions uid s idx }) := by
              simp only [upload_chunk, hsess, chunk_exists, get_chunk_path, get_chunk_size]
              rw [if_neg hidx, if_neg (by rw [htc]; exact fun hh => hh rfl)]
              rw [if_pos hidem]
            rw [heq] at h
            cases h
            cases hg : alGet (uid, idx) st.fs.chunks with
            | none =>
              rw [hg] at hidem
              simp at hidem
            | some d =>
              rw [hg] at hidem
              simp only [Option.isSome_some, if_true, Option.map_some] at hidem
              have hlen : d.length = data.length := by simpa using hidem
              exact upload_chunk_noop _ uid idx data tc
                { s with received_chunks := addSet idx s.received_chunks } b
                (alGet_markReceived_self st.sessions uid s idx hsess)
                hidx htc d hg hlen (self_mem_insertDir uid st.fs.dirs)
                ((mem_addSet idx idx s.received_chunks).mpr (Or.inl rfl))
          · have heq : upload_chunk true st uid idx data tc =
                ((true, (addSet idx s.received_chunks).length,
                  "Chunk uploaded successfully"),
                 { st with
                   sessions := markReceived st.sessions uid s idx,
                   fs := { st.fs with
                     dirs := insertDir uid (insertDir uid st.fs.dirs),
                     chunks := alSet (uid, idx) data st.fs.chunks } }) := by
              simp only [upload_chunk, hsess, chunk_exists, get_chunk_path, get_chunk_size]
              rw [if_neg hidx, if_neg (by rw [htc]; exact fun hh => hh rfl)]
              rw [if_neg hidem]
              rfl
            rw [heq] at h
            cases h
            exact upload_chunk_noop _ uid idx data tc
              { s with received_chunks := addSet idx s.received_chunks } b
              (alGet_markReceived_self st.sessions uid s idx hsess)
              hidx htc data (alGet_alSet_self _ _ _) rfl
              (self_mem_insertDir uid (insertDir uid st.fs.dirs))
              ((mem_addSet idx idx s.received_chunks).mpr (Or.inl rfl))
  · intro s d hs hidx htc hd hlen b
    have h1 : upload_chunk b st uid idx data tc =
        ((true, (addSet idx s.received_chunks).length,
          "Chunk already uploaded (idempotent)"),
         { st with fs := { st.fs with dirs := insertDir uid st.fs.dirs },
                   sessions := markReceived st.sessions uid s idx }) := by
      rw [upload_chunk, hs]
      simp only [chunk_exists, get_chunk_path, get_chunk_size]
      rw [if_neg hidx, if_neg (by rw [htc]; exact fun hh => hh rfl)]
      rw [if_pos (by rw [hd]; simp [hlen])]
    refine ⟨h1, ?_, alGet_markReceived_self st.sessions uid s idx hs⟩
    rw [h1]

/-- Witness for C3: after storing chunk 0, the identical re-upload takes
the idempotency shortcut and leaves the state exactly as it was. -/
theorem c3_witness :
    upload_chunk false
        ⟨⟨["u"], [(("u", 0), [9])], []⟩, [("u", ⟨"u", "f", 1, 1, 1, none, [0]⟩)]⟩
        "u" 0 [9] 1 =
      ((true, 1, "Chunk already uploaded (idempotent)"),
       ⟨⟨["u"], [(("u", 0), [9])], []⟩, [("u", ⟨"u", "f", 1, 1, 1, none, [0]⟩)]⟩) :=
  (c3_upload_chunk_idempotent
      ⟨⟨[], [], []⟩, [("u", ⟨"u", "f", 1, 1, 1, none, []⟩)]⟩ "u" 0 [9] 1).1
    (true, 1, "Chunk uploaded successfully")
    ⟨⟨["u"], [(("u", 0), [9])], []⟩, [("u", ⟨"u", "f", 1, 1, 1, none, [0]⟩)]⟩
    (by decide) (by decide) false

theorem length_insSorted {α : Type} [LinearOrder α] (a : α) (l : List α) :
    (insSorted a l).length = l.length + 1 := by
  induction l with
  | nil => rfl
  | cons b l ih =>
    rw [insSorted]
    by_cases h : a ≤ b
    · rw [if_pos h]
      rfl
    · rw [if_neg h, List.length_cons, ih, List.length_cons]

theorem length_sortL {α : Type} [LinearOrder α] (l : List α) :
    (sortL l).length = l.length := by
  induction l with
  | nil => rfl
  | cons a l ih =>
    show (insSorted a (sortL l)).length = l.length + 1
    rw [length_insSorted, ih]

theorem sortL_ne_nil {α : Type} [LinearOrder α] (l : List α) (h : l ≠ []) :
    sortL l ≠ [] := by
  intro he
  apply h
  have hl := length_sortL l
  rw [he] at hl
  exact List.length_eq_zero.mp hl.symm

/-- C7: the status endpoint — (1) with a registered session it returns
the session's `totalChunks`, the sorted `receivedChunks` and
`isComplete ↔ |received_chunks| = total_chunks`; (2) with no session but
on-disk chunks it returns the sorted `list_chunks` with `totalChunks`
inferred as `max(receivedChunks)+1` and
`isComplete = (len == inferred)`; (3) with neither it returns 404. -/
theorem c7_status_endpoint_cases (st : SState) (uid : String) :
    (∀ s, alGet uid st.sessions = some s →
      status_endpoint st uid =
        .ok uid (s.total_chunks : Int) (sortL s.received_chunks)
          (s.received_chunks.length == s.total_chunks) ∧
      (sortL s.received_chunks).Sorted (· ≤ ·) ∧
      (∀ x, x ∈ sortL s.received_chunks ↔ x ∈ s.received_chunks) ∧
      ((s.received_chunks.length == s.total_chunks) = true ↔
        s.received_chunks.length = s.total_chunks)) ∧
    (alGet uid st.sessions = none → (list_chunks st.fs uid).1 ≠ [] →
      status_endpoint st uid =
        .ok uid (maxL (sortL (list_chunks st.fs uid).1) + 1)
          (sortL (list_chunks st.fs uid).1)
          ((((sortL (list_chunks st.fs uid).1).length : Int)) ==
            maxL (sortL (list_chunks st.fs uid).1) + 1) ∧
      (sortL (list_chunks st.fs uid).1).Sorted (· ≤ ·)) ∧
    (alGet uid st.sessions = none → (list_chunks st.fs uid).1 = [] →
      status_endpoint st uid = .notFound) := by
  refine ⟨?_, ?_, ?_⟩
  · intro s hs
    refine ⟨?_, sorted_sortL _, fun x => mem_sortL x _, by simp⟩
    simp only [status_endpoint, get_upload_status, hs]
  · intro hs hne
    have hsne := sortL_ne_nil _ hne
    refine ⟨?_, sorted_sortL _⟩
    simp only [status_endpoint, get_upload_status, hs, if_neg hne]
    rw [if_pos hsne]
  · intro hs hnil
    simp only [status_endpoint, get_upload_status, hs, if_pos hnil]

/-- Witness for C7 on a registered session with one received chunk of
two. -/
theorem c7_witness :
    status_endpoint ⟨⟨[], [], []⟩, [("u", ⟨"u", "f", 2, 2, 1, none, [0]⟩)]⟩ "u" =
      .ok "u" 2 [0] false :=
  ((c7_status_endpoint_cases
      ⟨⟨[], [], []⟩, [("u", ⟨"u", "f", 2, 2, 1, none, [0]⟩)]⟩ "u").1
    ⟨"u", "f", 2, 2, 1, none, [0]⟩ (by decide)).1

/-- Every failing `reassemble_file` leaves the chunk store untouched and
ends with no file at the output name (the handler unlinks any partial or
stale output). -/
theorem reassemble_file_none_inv (fs : FS) (uid : String) (total : Nat)
    (name : String) (expected : Option Nat) (fs' : FS)
    (h : reassemble_file fs uid total name expected = (none, fs')) :
    fs'.chunks = fs.chunks ∧ fs'.completed = alErase name fs.completed ∧
    alGet name fs'.completed = none := by
  rw [reassemble_file] at h
  by_cases h1 : sameSet (list_chunks fs uid).1
      ((List.range total).map Int.ofNat) = true
  · rw [if_pos h1] at h
    by_cases h2 : (((List.range total).map
        (fun i => alGet (uid, Int.ofNat i) fs.chunks)).all Option.isSome) = true
    · rw [if_pos h2] at h
      cases expected with
      | none => cases h
      | some e =>
        simp only at h
        by_cases h3 : (((List.range total).map
            (fun i => alGet (uid, Int.ofNat i) fs.chunks)).map
              (fun o => o.getD [])).flatten.length = e
        · rw [if_pos h3] at h
          cases h
        · rw [if_neg h3] at h
          cases h
          exact ⟨rfl, rfl, alGet_alErase_self _ _⟩
    · rw [if_neg h2] at h
      cases h
      exact ⟨rfl, rfl, alGet_alErase_self _ _⟩
  · rw [if_neg h1] at h
    cases h
    exact ⟨rfl, rfl, alGet_alErase_self _ _⟩

/-- C9: when reassembly fails during `complete` (size mismatch or a
missing read), `complete_upload` returns absent, the output name holds no
file, and the service state is otherwise unchanged: the session is still
registered with its `received_chunks` intact and every committed chunk
file is still on disk, so `complete` can be retried. -/
theorem c9_reassembly_failure_preserves_state (hash : List Nat → String)
    (st : SState) (uid : String) (s : UploadSession) (fs1 : FS)
    (hs : alGet uid st.sessions = some s)
    (hcomp : s.received_chunks.length = s.total_chunks)
    (hre : reassemble_file st.fs uid s.total_chunks s.filename
      (some s.total_size) = (none, fs1)) :
    complete_upload hash st uid = .ok (none, { st with fs := fs1 }) ∧
    ({ st with fs := fs1 } : SState).sessions = st.sessions ∧
    alGet uid ({ st with fs := fs1 } : SState).sessions = some s ∧
    fs1.chunks = st.fs.chunks ∧
    alGet s.filename fs1.completed = none := by
  have hinv := reassemble_file_none_inv _ _ _ _ _ _ hre
  refine ⟨?_, rfl, hs, hinv.1, hinv.2.2⟩
  simp only [complete_upload, hs, hre]
  rw [if_neg (not_ne_iff.mpr hcomp)]

/-- Witness for C9: one committed chunk of one byte against a declared
`total_size` of two — reassembly hits the size mismatch, `complete`
returns absent, and chunks and session survive. -/
theorem c9_witness :
    complete_upload (fun _ => "")
        ⟨⟨["u"], [(("u", 0), [7])], []⟩, [("u", ⟨"u", "f", 2, 1, 1, none, [0]⟩)]⟩ "u" =
      .ok (none,
        ⟨⟨["u"], [(("u", 0), [7])], []⟩, [("u", ⟨"u", "f", 2, 1, 1, none, [0]⟩)]⟩) ∧
    alGet "f" (⟨["u"], [(("u", 0), [7])], []⟩ : FS).completed = none := by
  have h := c9_reassembly_failure_preserves_state (fun _ => "")
    ⟨⟨["u"], [(("u", 0), [7])], []⟩, [("u", ⟨"u", "f", 2, 1, 1, none, [0]⟩)]⟩ "u"
    ⟨"u", "f", 2, 1, 1, none, [0]⟩ ⟨["u"], [(("u", 0), [7])], []⟩
    (by decide) (by decide) (by decide)
  exact ⟨h.1, h.2.2.2.2⟩

/-- Inversion of a successful `reassemble_file` with a size expectation:
every chunk in `0..total-1` was committed, the output is their
concatenation in index order, its length matches, and the filesystem
holds it at the output name. -/
theorem reassemble_file_some_inv (fs : FS) (uid : String) (total : Nat)
    (name : String) (e : Nat) (out : List Nat) (fs' : FS)
    (h : reassemble_file fs uid total name (some e) = (some out, fs')) :
    (∀ i, i < total → (alGet (uid, Int.ofNat i) fs.chunks).isSome = true) ∧
    out = ((List.range total).map
      (fun i => (alGet (uid, Int.ofNat i) fs.chunks).getD [])).flatten ∧
    out.length = e ∧
    fs' = { fs with dirs := if total = 0 then fs.dirs else insertDir uid fs.dirs,
                    completed := alSet name out fs.completed } := by
  rw [reassemble_file] at h
  by_cases h1 : sameSet (list_chunks fs uid).1
      ((List.range total).map Int.ofNat) = true
  · rw [if_pos h1] at h
    by_cases h2 : (((List.range total).map
        (fun i => alGet (uid, Int.ofNat i) fs.chunks)).all Option.isSome) = true
    · rw [if_pos h2] at h
      simp only at h
      by_cases h3 : ((((List.range total).map
          (fun i => alGet (uid, Int.ofNat i) fs.chunks)).map
            (fun o => o.getD [])).flatten).length = e
      · rw [if_pos h3] at h
        rw [Prod.mk.injEq] at h
        obtain ⟨hout, hfs⟩ := h
        have hout' := Option.some.inj hout
        subst hout'
        subst hfs
        refine ⟨?_, ?_, h3, rfl⟩
        · intro i hi
          rw [List.all_eq_true] at h2
          have hm : ∃ a, a ∈ List.range total ∧
              (fun n : Nat => alGet (uid, (n : Int)) fs.chunks) a =
                alGet (uid, Int.ofNat i) fs.chunks :=
            ⟨i, List.mem_range.mpr hi, rfl⟩
          exact h2 (alGet (uid, Int.ofNat i) fs.chunks) (List.mem_map.mpr hm)
        · rw [List.map_map]
          rfl
      · rw [if_neg h3] at h
        rw [Prod.mk.injEq] at h
        exact absurd h.1 (by simp)
    · rw [if_neg h2] at h
      rw [Prod.mk.injEq] at h
      exact absurd h.1 (by simp)
  · rw [if_neg h1] at h
    rw [Prod.mk.injEq] at h
    exact absurd h.1 (by simp)

/-- Inversion of a successful `complete_upload`: the session existed and
was complete, reassembly succeeded, and the returned path, metadata and
final state have the shapes built by the source. -/
theorem complete_upload_some_inv (hash : List Nat → String) (st : SState)
    (uid p : String) (md : FileMeta) (st' : SState)
    (h : complete_upload hash st uid = .ok (some (p, md), st')) :
    ∃ s out fs1,
      alGet uid st.sessions = some s ∧
      s.received_chunks.length = s.total_chunks ∧
      reassemble_file st.fs uid s.total_chunks s.filename
        (some s.total_size) = (some out, fs1) ∧
      p = s.filename ∧
      md = { uploadId := uid, filename := s.filename, size := s.total_size,
             checksum :=
               (match s.checksum with
                | none => none
                | some c => if c = "" then none
                            else some (hash ((alGet s.filename fs1.completed).getD []))),
             fileType := detect_file_type s.filename,
             filepath := s.filename } ∧
      st' = { fs := cleanup_chunks fs1 uid,
              sessions := alErase uid st.sessions } := by
  rw [complete_upload] at h
  cases hs : alGet uid st.sessions with
  | none =>
    rw [hs] at h
    simp at h
  | some s =>
    rw [hs] at h
    simp only at h
    by_cases hc : s.received_chunks.length ≠ s.total_chunks
    · rw [if_pos hc] at h
      simp at h
    · rw [if_neg hc] at h
      push_neg at hc
      cases hr : reassemble_file st.fs uid s.total_chunks s.filename
          (some s.total_size) with
      | mk o fs1 =>
        rw [hr] at h
        cases o with
        | none => simp at h
        | some out =>
          simp only [Except.ok.injEq, Option.some.injEq, Prod.mk.injEq] at h
          obtain ⟨⟨hp, hmd⟩, hst⟩ := h
          exact ⟨s, out, fs1, rfl, hc, hr, hp.symm, hmd.symm, hst.symm⟩

/-- C1: after a successful `complete(upload_id)`, the completed file
exists under the session's filename, its length equals the session's
`total_size`, its bytes are the concatenation of the committed chunks in
index order `0..total_chunks-1`, the session's chunk directory and chunk
files are gone, and the session has been removed from the registry. -/
theorem c1_complete_success_postconditions (hash : List Nat → String)
    (st : SState) (uid p : String) (md : FileMeta) (st' : SState)
    (h : complete_upload hash st uid = .ok (some (p, md), st')) :
    ∃ s out,
      alGet uid st.sessions = some s ∧
      p = s.filename ∧ md.filename = s.filename ∧
      alGet s.filename st'.fs.completed = some out ∧
      out.length = s.total_size ∧
      out = ((List.range s.total_chunks).map
        (fun i => (alGet (uid, Int.ofNat i) st.fs.chunks).getD [])).flatten ∧
      (∀ i, i < s.total_chunks →
        (alGet (uid, Int.ofNat i) st.fs.chunks).isSome = true) ∧
      uid ∉ st'.fs.dirs ∧
      (∀ j : Int, alGet (uid, j) st'.fs.chunks = none) ∧
      alGet uid st'.sessions = none := by
  obtain ⟨s, out, fs1, hs, _hc, hre, hp, hmd, hst⟩ :=
    complete_upload_some_inv hash st uid p md st' h
  obtain ⟨hall, hout, hlen, hfs1⟩ := reassemble_file_some_inv _ _ _ _ _ _ _ hre
  subst hst
  subst hmd
  refine ⟨s, out, hs, hp, rfl, ?_, hlen, hout, hall, ?_, ?_, ?_⟩
  · show alGet s.filename (cleanup_chunks fs1 uid).completed = some out
    have hcc : (cleanup_chunks fs1 uid).completed = fs1.completed := rfl
    rw [hcc, hfs1]
    exact alGet_alSet_self _ _ _
  · show uid ∉ (cleanup_chunks fs1 uid).dirs
    exact not_mem_removeDir_self uid fs1.dirs
  · intro j
    show alGet (uid, j) (cleanup_chunks fs1 uid).chunks = none
    exact alGet_filter_ne_key uid fs1.chunks j
  · exact alGet_alErase_self uid st.sessions

/-- Witness for C1: a one-chunk session completes; the completed file
holds the chunk bytes and chunks, directory and session are gone. -/
theorem c1_witness :
    complete_upload (fun _ => "x")
        ⟨⟨["u"], [(("u", 0), [9])], []⟩, [("u", ⟨"u", "f", 1, 1, 1, none, [0]⟩)]⟩ "u" =
      .ok (some ("f", ⟨"u", "f", 1, none, "unknown", "f"⟩),
        ⟨⟨[], [], [("f", [9])]⟩, []⟩) ∧
    (∃ s out,
      alGet "u" ([("u", (⟨"u", "f", 1, 1, 1, none, [0]⟩ : UploadSession))]) = some s ∧
      "f" = s.filename ∧
      (⟨"u", "f", 1, none, "unknown", "f"⟩ : FileMeta).filename = s.filename ∧
      alGet s.filename ([("f", [9])] : List (String × List Nat)) = some out ∧
      out.length = s.total_size ∧
      out = ((List.range s.total_chunks).map
        (fun i => (alGet ("u", Int.ofNat i)
          ([(("u", 0), [9])] : List ((String × Int) × List Nat))).getD [])).flatten ∧
      (∀ i, i < s.total_chunks →
        (alGet ("u", Int.ofNat i)
          ([(("u", 0), [9])] : List ((String × Int) × List Nat))).isSome = true) ∧
      "u" ∉ ([] : List String) ∧
      (∀ j : Int, alGet ("u", j) ([] : List ((String × Int) × List Nat)) = none) ∧
      alGet "u" ([] : List (String × UploadSession)) = none) :=
  ⟨by decide,
   c1_complete_success_postconditions (fun _ => "x")
     ⟨⟨["u"], [(("u", 0), [9])], []⟩, [("u", ⟨"u", "f", 1, 1, 1, none, [0]⟩)]⟩
     "u" "f" ⟨"u", "f", 1, none, "unknown", "f"⟩ ⟨⟨[], [], [("f", [9])]⟩, []⟩
     (by decide)⟩

/-- C8: the metadata of a successful `complete` carries a checksum iff
the session's `checksum` supplied at init was non-empty (Python
truthiness), and then it is the freshly computed SHA-256 of the
reassembled file as a 64-character lowercase-hex string — the
client-supplied value is replaced, never compared; an absent or empty
init checksum yields an absent metadata checksum. -/
theorem c8_checksum_policy (st : SState) (uid p : String) (md : FileMeta)
    (st' : SState) (s : UploadSession)
    (hs : alGet uid st.sessions = some s)
    (h : complete_upload sha256hex st uid = .ok (some (p, md), st')) :
    ∃ out, alGet s.filename st'.fs.completed = some out ∧
      (s.checksum = none → md.checksum = none) ∧
      (s.checksum = some "" → md.checksum = none) ∧
      (∀ c, s.checksum = some c → c ≠ "" →
        md.checksum = some (sha256hex out) ∧
        (sha256hex out).length = 64 ∧
        ∀ ch ∈ (sha256hex out).data, ch ∈ "0123456789abcdef".data) := by
  obtain ⟨s', out, fs1, hs', _hc, hre, _hp, hmd, hst⟩ :=
    complete_upload_some_inv sha256hex st uid p md st' h
  have hss : s' = s := by
    rw [hs'] at hs
    exact Option.some.inj hs
  subst hss
  obtain ⟨_hall, _hout, _hlen, hfs1⟩ := reassemble_file_some_inv _ _ _ _ _ _ _ hre
  subst hst
  have hget : alGet s'.filename fs1.completed = some out := by
    rw [hfs1]
    exact alGet_alSet_self _ _ _
  have hcompl : alGet s'.filename (cleanup_chunks fs1 uid).completed = some out := by
    show alGet s'.filename fs1.completed = some out
    exact hget
  refine ⟨out, hcompl, ?_, ?_, ?_⟩
  · intro hck
    rw [hmd]
    simp [hck]
  · intro hck
    rw [hmd]
    simp [hck]
  · intro c hck hcne
    rw [hmd]
    refine ⟨?_, sha256hex_length out, sha256hex_chars out⟩
    show (match s'.checksum with
          | none => none
          | some c => if c = "" then none
                      else some (sha256hex ((alGet s'.filename fs1.completed).getD []))) =
        some (sha256hex out)
    rw [hck]
    simp only [if_neg hcne]
    rw [hget]
    rfl

set_option maxRecDepth 100000 in
/-- Witness for C8: a one-byte upload (`"a"`) initialized with a client
checksum; the metadata checksum is the true SHA-256 of the reassembled
byte, not the client's value. -/
theorem c8_witness :
    complete_upload sha256hex
        ⟨⟨["u"], [(("u", 0), [97])], []⟩,
         [("u", ⟨"u", "f", 1, 1, 1, some "deadbeef", [0]⟩)]⟩ "u" =
      .ok (some ("f",
        ⟨"u", "f", 1,
         some "ca978112ca1bbdcafac231b39a23dc4da786eff8147c4e72b9807785afee48bb",
         "unknown", "f"⟩),
        ⟨⟨[], [], [("f", [97])]⟩, []⟩) ∧
    (∃ out, alGet "f" ([("f", [97])] : List (String × List Nat)) = some out ∧
      ((⟨"u", "f", 1, 1, 1, some "deadbeef", [0]⟩ : UploadSession).checksum = none →
        (⟨"u", "f", 1,
          some "ca978112ca1bbdcafac231b39a23dc4da786eff8147c4e72b9807785afee48bb",
          "unknown", "f"⟩ : FileMeta).checksum = none) ∧
      ((⟨"u", "f", 1, 1, 1, some "deadbeef", [0]⟩ : UploadSession).checksum = some "" →
        (⟨"u", "f", 1,
          some "ca978112ca1bbdcafac231b39a23dc4da786eff8147c4e72b9807785afee48bb",
          "unknown", "f"⟩ : FileMeta).checksum = none) ∧
      (∀ c, (⟨"u", "f", 1, 1, 1, some "deadbeef", [0]⟩ : UploadSession).checksum = some c →
        c ≠ "" →
        (⟨"u", "f", 1,
          some "ca978112ca1bbdcafac231b39a23dc4da786eff8147c4e72b9807785afee48bb",
          "unknown", "f"⟩ : FileMeta).checksum = some (sha256hex out) ∧
        (sha256hex out).length = 64 ∧
        ∀ ch ∈ (sha256hex out).data, ch ∈ "0123456789abcdef".data)) :=
  ⟨by decide,
   c8_checksum_policy
     ⟨⟨["u"], [(("u", 0), [97])], []⟩,
      [("u", ⟨"u", "f", 1, 1, 1, some "deadbeef", [0]⟩)]⟩ "u" "f"
     ⟨"u", "f", 1,
      some "ca978112ca1bbdcafac231b39a23dc4da786eff8147c4e72b9807785afee48bb",
      "unknown", "f"⟩ ⟨⟨[], [], [("f", [97])]⟩, []⟩
     ⟨"u", "f", 1, 1, 1, some "deadbeef", [0]⟩ (by decide) (by decide)⟩

theorem mem_addAll (r : List Int) (l : List Nat) (j : Int) :
    j ∈ addAll r l ↔ j ∈ r ∨ ∃ i ∈ l, Int.ofNat i = j := by
  induction l generalizing r with
  | nil => simp [addAll]
  | cons i os ih =>
    show j ∈ addAll (addSet (Int.ofNat i) r) os ↔ _
    rw [ih, mem_addSet]
    constructor
    · rintro ((rfl | hj) | ⟨x, hx, rfl⟩)
      · exact Or.inr ⟨i, List.mem_cons_self _ _, rfl⟩
      · exact Or.inl hj
      · exact Or.inr ⟨x, List.mem_cons_of_mem _ hx, rfl⟩
    · rintro (hj | ⟨x, hx, rfl⟩)
      · exact Or.inl (Or.inr hj)
      · rcases List.mem_cons.mp hx with rfl | hx
        · exact Or.inl (Or.inl rfl)
        · exact Or.inr ⟨x, hx, rfl⟩

theorem nodup_addAll (r : List Int) (l : List Nat) (h : r.Nodup) :
    (addAll r l).Nodup := by
  induction l generalizing r with
  | nil => exact h
  | cons i os ih =>
    show (addAll (addSet (Int.ofNat i) r) os).Nodup
    exact ih _ (addSet_nodup _ _ h)

/-- One step of a fresh-session upload run: uploading index `i` with its
own bytes keeps the invariant "the committed chunks are exactly the
acknowledged set, each holding its own content". -/
theorem upload_step (uid : String) (s₀ : UploadSession) (cs : List (List Nat))
    (st : SState) (r : List Int) (i : Nat)
    (hi : i < s₀.total_chunks)
    (hsess : alGet uid st.sessions = some { s₀ with received_chunks := r })
    (hchunks : ∀ j : Int, alGet (uid, j) st.fs.chunks =
      if j ∈ r then some (cs.getD j.toNat []) else none) :
    alGet uid (upload_chunk true st uid (Int.ofNat i) (cs.getD i [])
        ((s₀.total_chunks : Int))).2.sessions =
      some { s₀ with received_chunks := addSet (Int.ofNat i) r } ∧
    (∀ j : Int, alGet (uid, j)
        (upload_chunk true st uid (Int.ofNat i) (cs.getD i [])
          ((s₀.total_chunks : Int))).2.fs.chunks =
      if j ∈ addSet (Int.ofNat i) r then some (cs.getD j.toNat []) else none) := by
  have hidx : ¬(Int.ofNat i < 0 ∨
      (((s₀.total_chunks : Nat) : Int)) ≤ Int.ofNat i) := by
    push_neg
    exact ⟨Int.ofNat_nonneg i, Int.ofNat_lt.mpr hi⟩
  by_cases hmem : Int.ofNat i ∈ r
  · have hex : alGet (uid, Int.ofNat i) st.fs.chunks =
        some (cs.getD (Int.ofNat i).toNat []) := by
      rw [hchunks, if_pos hmem]
    have heq : upload_chunk true st uid (Int.ofNat i) (cs.getD i [])
        ((s₀.total_chunks : Int)) =
        ((true, (addSet (Int.ofNat i) r).length, "Chunk already uploaded (idempotent)"),
         { st with
           fs := { st.fs with dirs := insertDir uid st.fs.dirs },
           sessions := markReceived st.sessions uid
             { s₀ with received_chunks := r } (Int.ofNat i) }) := by
      simp only [upload_chunk, hsess, chunk_exists, get_chunk_path, get_chunk_size]
      rw [if_neg hidx, if_neg (fun hh => hh rfl)]
      rw [if_pos (by
        rw [hex]
        simp only [Option.isSome_some]
        rw [if_pos trivial]
        exact beq_iff_eq.mpr rfl)]
    rw [heq]
    constructor
    · exact alGet_markReceived_self st.sessions uid _ (Int.ofNat i) hsess
    · intro j
      show alGet (uid, j) st.fs.chunks = _
      rw [addSet_mem_eq _ _ hmem]
      exact hchunks j
  · have hex : alGet (uid, Int.ofNat i) st.fs.chunks = none := by
      rw [hchunks, if_neg hmem]
    have heq : upload_chunk true st uid (Int.ofNat i) (cs.getD i [])
        ((s₀.total_chunks : Int)) =
        ((true, (addSet (Int.ofNat i) r).length, "Chunk uploaded successfully"),
         { st with
           sessions := markReceived st.sessions uid
             { s₀ with received_chunks := r } (Int.ofNat i),
           fs := { st.fs with
             dirs := insertDir uid (insertDir uid st.fs.dirs),
             chunks := alSet (uid, Int.ofNat i) (cs.getD i []) st.fs.chunks } }) := by
      simp only [upload_chunk, hsess, chunk_exists, get_chunk_path, get_chunk_size]
      rw [if_neg hidx, if_neg (fun hh => hh rfl)]
      rw [if_neg (by rw [hex]; simp)]
      rfl
    rw [heq]
    constructor
    · exact alGet_markReceived_self st.sessions uid _ (Int.ofNat i) hsess
    · intro j
      show alGet (uid, j) (alSet (uid, Int.ofNat i) (cs.getD i []) st.fs.chunks) = _
      by_cases hj : j = Int.ofNat i
      · subst hj
        rw [alGet_alSet_self, if_pos ((mem_addSet _ _ _).mpr (Or.inl rfl))]
        rfl
      · rw [alGet_alSet_ne _ _ (fun he => hj (congrArg Prod.snd he)), hchunks j]
        have hiff : (j ∈ addSet (Int.ofNat i) r) ↔ j ∈ r := by
          rw [mem_addSet]
          exact or_iff_right hj
        rw [if_congr hiff rfl rfl]

/-- Folding a whole upload run preserves the fresh-session invariant:
afterwards the registry acknowledges `addAll r order` and the committed
chunks are exactly that set, each holding its own content. -/
theorem uploadMany_invariant (uid : String) (s₀ : UploadSession)
    (cs : List (List Nat)) (order : List Nat) :
    ∀ (st : SState) (r : List Int),
      (∀ i ∈ order, i < s₀.total_chunks) →
      alGet uid st.sessions = some { s₀ with received_chunks := r } →
      (∀ j : Int, alGet (uid, j) st.fs.chunks =
        if j ∈ r then some (cs.getD j.toNat []) else none) →
      alGet uid (uploadMany st uid cs ((s₀.total_chunks : Int)) order).sessions =
        some { s₀ with received_chunks := addAll r order } ∧
      (∀ j : Int, alGet (uid, j)
          (uploadMany st uid cs ((s₀.total_chunks : Int)) order).fs.chunks =
        if j ∈ addAll r order then some (cs.getD j.toNat []) else none) := by
  induction order with
  | nil =>
    intro st r _ h1 h2
    exact ⟨h1, h2⟩
  | cons i os ih =>
    intro st r hbound h1 h2
    have hstep := upload_step uid s₀ cs st r i
      (hbound i (List.mem_cons_self _ _)) h1 h2
    have hnext := ih _ (addSet (Int.ofNat i) r)
      (fun x hx => hbound x (List.mem_cons_of_mem _ hx)) hstep.1 hstep.2
    exact hnext

/-- A complete session whose reassembly succeeds completes: the returned
path is the session filename and the final completed-file map is the one
left by reassembly. -/
theorem complete_upload_ok_of (hash : List Nat → String) (st : SState)
    (uid : String) (s : UploadSession) (out : List Nat) (fs1 : FS)
    (hs : alGet uid st.sessions = some s)
    (hc : s.received_chunks.length = s.total_chunks)
    (hre : reassemble_file st.fs uid s.total_chunks s.filename
      (some s.total_size) = (some out, fs1)) :
    ∃ md st', complete_upload hash st uid = .ok (some (s.filename, md), st') ∧
      st'.fs.completed = fs1.completed := by
  refine ⟨{ uploadId := uid, filename := s.filename, size := s.total_size,
            checksum := s.checksum.bind (fun c =>
              if c = "" then none
              else some (hash ((alGet s.filename fs1.completed).getD []))),
            fileType := detect_file_type s.filename, filepath := s.filename },
    { fs := cleanup_chunks fs1 uid, sessions := alErase uid st.sessions },
    ?_, rfl⟩
  simp only [complete_upload, hs, hre]
  rw [if_neg (not_ne_iff.mpr hc)]
  cases s.checksum <;> rfl

/-- C2: for a fresh session whose chunk contents are `cs`, uploading the
chunks in any permutation of `0..N-1` (each `upload_chunk` succeeding)
followed by `complete` produces a file bitwise identical to
`cs[0] ++ ... ++ cs[N-1]` — the completed bytes do not depend on the
arrival order. -/
theorem c2_order_independent_reassembly (hash : List Nat → String)
    (st : SState) (uid : String) (s : UploadSession) (cs : List (List Nat))
    (order : List Nat)
    (hs : alGet uid st.sessions = some s)
    (hrec : s.received_chunks = [])
    (hlen : cs.length = s.total_chunks)
    (hperm : order.Perm (List.range s.total_chunks))
    (hsize : s.total_size = cs.flatten.length)
    (hfresh : ∀ j : Int, alGet (uid, j) st.fs.chunks = none) :
    ∃ md st',
      complete_upload hash
        (uploadMany st uid cs ((s.total_chunks : Int)) order) uid =
        .ok (some (s.filename, md), st') ∧
      alGet s.filename st'.fs.completed = some cs.flatten := by
  have hbound : ∀ i ∈ order, i < s.total_chunks := by
    intro i hi
    exact List.mem_range.mp (hperm.subset hi)
  have hsess0 : alGet uid st.sessions = some { s with received_chunks := [] } := by
    rw [← hrec]
    exact hs
  have hchunks0 : ∀ j : Int, alGet (uid, j) st.fs.chunks =
      if j ∈ ([] : List Int) then some (cs.getD j.toNat []) else none := by
    intro j
    simp [hfresh j]
  obtain ⟨hsessF, hchunksF⟩ :=
    uploadMany_invariant uid s cs order st [] hbound hsess0 hchunks0
  have hmem2 : ∀ j : Int, j ∈ addAll [] order ↔
      j ∈ (List.range s.total_chunks).map Int.ofNat := by
    intro j
    rw [mem_addAll]
    constructor
    · rintro (hj | ⟨i, hio, rfl⟩)
      · cases hj
      · exact List.mem_map.mpr ⟨i, hperm.subset hio, rfl⟩
    · intro hm
      obtain ⟨i, hir, rfl⟩ := List.mem_map.mp hm
      exact Or.inr ⟨i, hperm.mem_iff.mpr hir, rfl⟩
  have hnd : (addAll [] order).Nodup := nodup_addAll [] order List.nodup_nil
  have hndR : ((List.range s.total_chunks).map Int.ofNat).Nodup :=
    List.Nodup.map (fun a b hab => Int.ofNat.inj hab) (List.nodup_range _)
  have hpermR : (addAll [] order).Perm ((List.range s.total_chunks).map Int.ofNat) :=
    (List.perm_ext_iff_of_nodup hnd hndR).mpr hmem2
  have hlenR : (addAll [] order).length = s.total_chunks := by
    rw [hpermR.length_eq, List.length_map, List.length_range]
  have hparts : ∀ i, i < s.total_chunks →
      alGet (uid, Int.ofNat i)
        (uploadMany st uid cs ((s.total_chunks : Int)) order).fs.chunks =
      some (cs.getD i []) := by
    intro i hi
    rw [hchunksF]
    rw [if_pos ((hmem2 (Int.ofNat i)).mpr
      (List.mem_map.mpr ⟨i, List.mem_range.mpr hi, rfl⟩))]
    rfl
  have hlist : ∀ j : Int,
      j ∈ (list_chunks (uploadMany st uid cs ((s.total_chunks : Int)) order).fs uid).1 ↔
        j ∈ addAll [] order := by
    intro j
    rw [mem_list_chunks, hchunksF j]
    by_cases hj : j ∈ addAll [] order <;> simp [hj]
  have hsame : sameSet
      (list_chunks (uploadMany st uid cs ((s.total_chunks : Int)) order).fs uid).1
      ((List.range s.total_chunks).map Int.ofNat) = true := by
    rw [sameSet_iff]
    intro x
    rw [hlist x, hmem2 x]
  have hpeq : (List.range s.total_chunks).map (fun i => alGet (uid, Int.ofNat i)
        (uploadMany st uid cs ((s.total_chunks : Int)) order).fs.chunks) =
      (List.range s.total_chunks).map (fun i => some (cs.getD i [])) := by
    apply List.map_congr_left
    intro i hi
    exact hparts i (List.mem_range.mp hi)
  have hout : (((List.range s.total_chunks).map
      (fun i => some (cs.getD i []))).map (fun o => o.getD [])).flatten = cs.flatten := by
    rw [List.map_map]
    have hcomp : ((fun o : Option (List Nat) => o.getD []) ∘
        (fun i => some (cs.getD i []))) = fun i => cs.getD i [] := rfl
    rw [hcomp, ← hlen, getD_range_map]
  have hre : reassemble_file
      (uploadMany st uid cs ((s.total_chunks : Int)) order).fs uid
      s.total_chunks s.filename (some s.total_size) =
      (some cs.flatten,
       { (uploadMany st uid cs ((s.total_chunks : Int)) order).fs with
         dirs := if s.total_chunks = 0 then
             (uploadMany st uid cs ((s.total_chunks : Int)) order).fs.dirs
           else insertDir uid (uploadMany st uid cs ((s.total_chunks : Int)) order).fs.dirs,
         completed := alSet s.filename cs.flatten
           (uploadMany st uid cs ((s.total_chunks : Int)) order).fs.completed }) := by
    rw [reassemble_file, if_pos hsame, hpeq]
    rw [if_pos (by
      rw [List.all_eq_true]
      intro x hx
      obtain ⟨i, _, rfl⟩ := List.mem_map.mp hx
      rfl)]
    simp only [hout]
    rw [if_pos hsize.symm]
  obtain ⟨md, st', hcomp, hcompl⟩ :=
    complete_upload_ok_of hash (uploadMany st uid cs ((s.total_chunks : Int)) order)
      uid { s with received_chunks := addAll [] order } cs.flatten _
      hsessF hlenR hre
  refine ⟨md, st', hcomp, ?_⟩
  rw [hcompl]
  exact alGet_alSet_self _ _ _

/-- Witness for C2: two one-byte chunks uploaded in reverse order
complete to the in-order concatenation. -/
theorem c2_witness :
    ∃ md st',
      complete_upload (fun _ => "")
        (uploadMany ⟨⟨[], [], []⟩, [("u", ⟨"u", "f", 2, 2, 1, none, []⟩)]⟩
          "u" [[1], [2]] 2 [1, 0]) "u" =
        .ok (some ("f", md), st') ∧
      alGet "f" st'.fs.completed = some ([[1], [2]] : List (List Nat)).flatten :=
  c2_order_independent_reassembly (fun _ => "")
    ⟨⟨[], [], []⟩, [("u", ⟨"u", "f", 2, 2, 1, none, []⟩)]⟩ "u"
    ⟨"u", "f", 2, 2, 1, none, []⟩ [[1], [2]] [1, 0]
    (by decide) rfl (by decide) (by decide) (by decide) (fun _ => rfl)

/-- C5 counterexample: with no session registered for the id,
`complete_upload` returns `None` (`Except.ok (none, st)`) rather than
raising the incomplete-upload error carrying missing indices that the
claim asserts for every call where the session does not exist and
complete. -/
theorem c5_counterexample :
    complete_upload (fun _ => "") ⟨⟨[], [], []⟩, []⟩ "u" =
      Except.ok (none, (⟨⟨[], [], []⟩, []⟩ : SState)) ∧
    alGet "u" ([] : List (String × UploadSession)) = none :=
  ⟨rfl, rfl⟩

/-- C5 (amended): if the session exists but is incomplete, `complete`
raises the incomplete-upload error carrying the sorted missing indices
and the boundary surfaces it as a client error with the state unchanged
(no reassembly); if the session is absent, `complete` returns absent and
the boundary surfaces a generic client error, again with the state
unchanged. -/
theorem c5_amended_complete_failures (hash : List Nat → String)
    (jloads : String → Bool) (st : SState) (uid : String) :
    (∀ s, alGet uid st.sessions = some s →
      s.received_chunks.length ≠ s.total_chunks →
      complete_upload hash st uid = .error (get_missing_chunks s) ∧
      (get_missing_chunks s).Sorted (· ≤ ·) ∧
      (∀ j : Int, j ∈ get_missing_chunks s ↔
        j ∈ (List.range s.total_chunks).map Int.ofNat ∧
          ¬ j ∈ s.received_chunks) ∧
      complete_endpoint hash jloads st uid =
        (.clientError ("Upload incomplete: missing chunks " ++
          toString (get_missing_chunks s)), st)) ∧
    (alGet uid st.sessions = none →
      complete_upload hash st uid = .ok (none, st) ∧
      complete_endpoint hash jloads st uid =
        (.clientError "Failed to complete upload", st)) := by
  constructor
  · intro s hs hne
    have h1 : complete_upload hash st uid = .error (get_missing_chunks s) := by
      simp only [complete_upload, hs]
      rw [if_pos hne]
    refine ⟨h1, sorted_sortL _, ?_, ?_⟩
    · intro j
      rw [get_missing_chunks, mem_sortL, List.mem_filter]
      simp
    · simp only [complete_endpoint, h1]
  · intro hs
    have h1 : complete_upload hash st uid = .ok (none, st) := by
      simp only [complete_upload, hs]
    refine ⟨h1, ?_⟩
    simp only [complete_endpoint, h1]

/-- Witness for C5's amended theorem: a three-chunk session with only
chunk 0 received raises the error carrying `[1, 2]`. -/
theorem c5_witness :
    complete_upload (fun _ => "")
        ⟨⟨["u"], [(("u", 0), [7])], []⟩, [("u", ⟨"u", "f", 3, 3, 1, none, [0]⟩)]⟩ "u" =
      .error (get_missing_chunks ⟨"u", "f", 3, 3, 1, none, [0]⟩) ∧
    get_missing_chunks ⟨"u", "f", 3, 3, 1, none, [0]⟩ = [1, 2] :=
  ⟨((c5_amended_complete_failures (fun _ => "") (fun _ => true)
      ⟨⟨["u"], [(("u", 0), [7])], []⟩, [("u", ⟨"u", "f", 3, 3, 1, none, [0]⟩)]⟩ "u").1
    ⟨"u", "f", 3, 3, 1, none, [0]⟩ (by decide) (by decide)).1,
   by decide⟩

theorem checkJsonlLines_all_pass (jloads : String → Bool) :
    ∀ (lines : List String) (k : Nat),
      (∀ l ∈ lines.take (10 - k), jloads (pyStrip l) = true) →
      checkJsonlLines jloads lines k = (true, none) := by
  intro lines
  induction lines with
  | nil => intro k _; rfl
  | cons l ls ih =>
    intro k hall
    rw [checkJsonlLines]
    by_cases hk : 10 ≤ k
    · rw [if_pos hk]
    · rw [if_neg hk]
      have h10 : 10 - k = (10 - (k + 1)) + 1 := by omega
      have hl : jloads (pyStrip l) = true := by
        apply hall
        rw [h10, List.take_succ_cons]
        exact List.mem_cons_self _ _
      rw [if_pos hl]
      apply ih
      intro x hx
      apply hall
      rw [h10, List.take_succ_cons]
      exact List.mem_cons_of_mem _ hx

theorem checkJsonlLines_fail_at (jloads : String → Bool) :
    ∀ (lines : List String) (k i : Nat),
      k + i < 10 → i < lines.length →
      (∀ j, j < i → jloads (pyStrip (lines.getD j "")) = true) →
      jloads (pyStrip (lines.getD i "")) = false →
      checkJsonlLines jloads lines k =
        (false, some ("Invalid JSONL format at line " ++ toString (k + i + 1))) := by
  intro lines
  induction lines with
  | nil =>
    intro k i _ hlt
    simp at hlt
  | cons l ls ih =>
    intro k i hki hlt hpre hfail
    rw [checkJsonlLines]
    rw [if_neg (by omega)]
    cases i with
    | zero =>
      rw [if_neg (by
        have : jloads (pyStrip l) = false := hfail
        simp [this])]
    | succ i' =>
      have hl : jloads (pyStrip l) = true := hpre 0 (Nat.succ_pos _)
      rw [if_pos hl]
      have hrec := ih (k + 1) i' (by omega)
        (Nat.succ_lt_succ_iff.mp hlt)
        (fun j hj => hpre (j + 1) (Nat.succ_lt_succ hj))
        hfail
      have harith : (k + 1) + i' + 1 = k + (i' + 1) + 1 := by omega
      rw [← harith]
      exact hrec

/-- C6 counterexample: the file whose lines are `1`, an empty line, `2`
has all its non-empty lines parse as JSON, so the sink described by the
claim ("parses the first 10 non-empty lines") accepts it — but the code
iterates over all lines, feeds the empty second line to `json.loads`,
and hard-rejects the file at line 2. -/
theorem c6_counterexample :
    validateJsonlSpecC6 jsonLoadsOk ["1", "", "2"] = true ∧
    validate_dataset jsonLoadsOk ["1", "", "2"] "x.jsonl" "dataset" =
      (false, some "Invalid JSONL format at line 2") := by
  constructor
  · decide
  · decide

/-- C6 (amended): for a completed `.jsonl` dataset the format sink
checks the first `min(10, #lines)` lines — empty lines included — by
running `json.loads` on each stripped line: if they all parse it
accepts, and the first failing line in that window (an empty line fails)
is a hard reject reporting its 1-based number; on rejection the
reassembled file is deleted before the reason is returned. -/
theorem c6_amended_jsonl_validation (jloads : String → Bool) :
    (∀ (lines : List String) (name : String),
      strLower (pySuffix name) = ".jsonl" →
      (∀ l ∈ lines.take 10, jloads (pyStrip l) = true) →
      validate_dataset jloads lines name "dataset" = (true, none)) ∧
    (∀ (lines : List String) (name : String) (i : Nat),
      strLower (pySuffix name) = ".jsonl" →
      i < 10 → i < lines.length →
      (∀ j, j < i → jloads (pyStrip (lines.getD j "")) = true) →
      jloads (pyStrip (lines.getD i "")) = false →
      validate_dataset jloads lines name "dataset" =
        (false, some ("Invalid JSONL format at line " ++ toString (i + 1)))) ∧
    (∀ (hash : List Nat → String) (st : SState) (uid p : String)
      (md : FileMeta) (st' : SState) (e : String),
      complete_upload hash st uid = .ok (some (p, md), st') →
      validate_dataset jloads
        (pyLines (asciiDecode ((alGet md.filename st'.fs.completed).getD [])))
        md.filename md.fileType = (false, some e) →
      complete_endpoint hash jloads st uid =
        (.clientError ("Validation failed: " ++ e),
         { st' with fs :=
            { st'.fs with completed := alErase md.filename st'.fs.completed } }) ∧
      alGet md.filename (alErase md.filename st'.fs.completed) = none) := by
  refine ⟨?_, ?_, ?_⟩
  · intro lines name hext hall
    rw [validate_dataset, if_neg (by simp)]
    simp only [hext]
    rw [if_neg (by decide), if_pos trivial]
    exact checkJsonlLines_all_pass jloads lines 0 (by simpa using hall)
  · intro lines name i hext hi hlt hpre hfail
    rw [validate_dataset, if_neg (by simp)]
    simp only [hext]
    rw [if_neg (by decide), if_pos trivial]
    have h := checkJsonlLines_fail_at jloads lines 0 i (by omega) hlt hpre hfail
    simpa using h
  · intro hash st uid p md st' e hcomp hval
    constructor
    · simp only [complete_endpoint, hcomp, hval]
      rfl
    · exact alGet_alErase_self _ _

/-- Witness for C6's amended theorem at the counterexample file: the
empty second line is inside the checked window and rejects at line 2. -/
theorem c6_witness :
    validate_dataset jsonLoadsOk ["1", "", "2"] "x.jsonl" "dataset" =
      (false, some ("Invalid JSONL format at line " ++ toString (1 + 1))) :=
  (c6_amended_jsonl_validation jsonLoadsOk).2.1 ["1", "", "2"] "x.jsonl" 1
    (by decide) (by decide) (by decide)
    (by decide)
    (by decide)
